import Mathlib

/-!
Verification of the Analogical Insight Extractor repository.

The repository is a React single-page application with two parallel
implementations of the same app:

* a multi-file variant (App in the bundle around OutputSection.tsx, with
  geminiService, firebase.ts, VaultView, InputSection, AnswerExtractor), and
* a self-contained variant in index.tsx.

This file shallowly embeds the string-level and store-level logic of both
variants: the staged-question counter and push handler, the batching of the
staging text (split on blank lines, keep chunks with a question marker, take
six), SHA-256 content hashing of normalized question text, the Firestore
vault model (document per content hash, insert-or-replace setDoc), the
duplicate-check-then-process scan flow, the error-swallowing persistence
wrappers, the Gemini service guards, and the client-side vault filters.

Platform primitives that are not repository code (Web Crypto SHA-256, the
JavaScript regexp engine, TextEncoder/UTF-8, JSON.parse, Date arithmetic)
are embedded as follows: SHA-256 and UTF-8 are implemented here from their
published specifications, JS regexp uses of the repository are compiled by
hand to scanning functions (the repository only uses three fixed patterns),
JSON.parse is an abstract parameter, and Date semantics is an abstract
parameter record.

All definitions are executable; machine integers are Nat with explicit
reductions modulo 2 ^ 32 where the JS typed-array arithmetic overflows.
-/

namespace AIE

/-! ## JavaScript character classes and case mapping -/

/-- Code point of a character as a Nat. -/
def charCode (c : Char) : Nat := c.toNat

/-- JavaScript whitespace (the class trimmed by String.prototype.trim and
matched by a backslash-s regexp class): tab, line feed, vertical tab, form
feed, carriage return, space, NBSP, and the Unicode space separators plus
the line and paragraph separators and BOM. -/
def isJsWs (c : Char) : Bool :=
  let n := charCode c
  n = 9 || n = 10 || n = 11 || n = 12 || n = 13 || n = 32 || n = 160 ||
  n = 5760 || (8192 ≤ n && n ≤ 8202) || n = 8232 || n = 8233 || n = 8239 ||
  n = 8287 || n = 12288 || n = 65279

/-- Packing a small code point into a Char and reading it back is the
identity. -/
theorem charCode_ofNat (n : Nat) (h : n < 55296) : charCode (Char.ofNat n) = n := by
  have hv : n.isValidChar := Or.inl h
  simp [charCode, Char.toNat, Char.ofNat, dif_pos hv, Char.ofNatAux,
    UInt32.toNat, BitVec.toNat_ofNatLt]

/-- ASCII lowercasing of one character, the fragment of JS toLowerCase that
the repository relies on (question text and filter strings). Non-letters are
unchanged. -/
def asciiLower (c : Char) : Char :=
  if 65 ≤ charCode c ∧ charCode c ≤ 90 then Char.ofNat (charCode c + 32) else c

/-- Lowercase a character list (JS toLowerCase on the ASCII fragment). -/
def lowerL (l : List Char) : List Char := l.map asciiLower

/-- Drop trailing JS whitespace. -/
def trimEndL (l : List Char) : List Char :=
  (l.reverse.dropWhile isJsWs).reverse

/-- JS String.prototype.trim on a character list: drop leading and trailing
whitespace. -/
def jsTrimL (l : List Char) : List Char :=
  trimEndL (l.dropWhile isJsWs)

/-- JS String.prototype.trim on a String. -/
def jsTrimS (s : String) : String := String.mk (jsTrimL s.data)

/-- ASCII case mapping sends no character into or out of the JS whitespace
class. -/
theorem isJsWs_asciiLower (c : Char) : isJsWs (asciiLower c) = isJsWs c := by
  unfold asciiLower
  split_ifs with h
  · have hc : charCode (Char.ofNat (charCode c + 32)) = charCode c + 32 :=
      charCode_ofNat _ (by omega)
    have h1 := h.1
    have h2 := h.2
    rw [Bool.eq_iff_iff]
    simp only [isJsWs, hc, Bool.or_eq_true, decide_eq_true_eq, Bool.and_eq_true]
    constructor <;> intro hh <;> omega
  · rfl

theorem lowerL_append (a b : List Char) :
    lowerL (a ++ b) = lowerL a ++ lowerL b := by
  simp [lowerL]

theorem lowerL_cons (c : Char) (l : List Char) :
    lowerL (c :: l) = asciiLower c :: lowerL l := rfl

/-! ## Occurrence counting for the staged-question counter

JS `s.match(/pat/g) || []).length` for a fixed, nonempty literal pattern is
the number of non-overlapping occurrences found by a left-to-right scan that
jumps over each match. `countOccAux` is that scan with explicit fuel (each
step consumes at least one character, so `s.length` fuel always suffices);
`countOcc` supplies the fuel. -/

def countOccAux (pat : List Char) : Nat → List Char → Nat
  | 0, _ => 0
  | _ + 1, [] => 0
  | fuel + 1, c :: rest =>
    if pat ≠ [] ∧ pat.isPrefixOf (c :: rest) = true then
      1 + countOccAux pat fuel ((c :: rest).drop pat.length)
    else
      countOccAux pat fuel rest

/-- Number of non-overlapping occurrences of `pat` in `s`, scanning left to
right (the semantics of a global regexp match count for a literal pattern). -/
def countOcc (pat s : List Char) : Nat := countOccAux pat s.length s

/-- Substring test: JS String.prototype.includes. -/
def containsL (pat : List Char) : List Char → Bool
  | [] => pat.isPrefixOf []
  | c :: rest => pat.isPrefixOf (c :: rest) || containsL pat rest

/-- Bool prefix test unfolded to an existential decomposition. -/
theorem isPrefixOf_iff_exists_append (p s : List Char) :
    p.isPrefixOf s = true ↔ ∃ t, s = p ++ t := by
  induction p generalizing s with
  | nil => simp [List.isPrefixOf]
  | cons a p ih =>
    cases s with
    | nil => simp [List.isPrefixOf]
    | cons b s =>
      simp only [List.isPrefixOf, Bool.and_eq_true, beq_iff_eq, ih]
      constructor
      · rintro ⟨rfl, t, rfl⟩; exact ⟨t, rfl⟩
      · rintro ⟨t, h⟩
        cases h
        exact ⟨rfl, t, rfl⟩

theorem countOccAux_fuel (pat : List Char) :
    ∀ n, ∀ g s, s.length ≤ n → s.length ≤ g →
      countOccAux pat g s = countOccAux pat s.length s := by
  intro n
  induction n with
  | zero =>
    intro g s hs _
    have : s = [] := List.length_eq_zero.mp (Nat.le_zero.mp hs)
    subst this
    cases g <;> rfl
  | succ n ih =>
    intro g s hs hg
    cases s with
    | nil => cases g <;> rfl
    | cons c rest =>
      cases g with
      | zero => simp at hg
      | succ g =>
        by_cases h : pat ≠ [] ∧ pat.isPrefixOf (c :: rest) = true
        · have hplen : 1 ≤ pat.length := by
            cases pat with
            | nil => exact absurd rfl h.1
            | cons _ _ => simp
          simp only [countOccAux, if_pos h]
          have hlen : ((c :: rest).drop pat.length).length ≤ n := by
            simp only [List.length_drop, List.length_cons]
            simp only [List.length_cons] at hs
            omega
          have h1 := ih g ((c :: rest).drop pat.length) hlen
            (by simp only [List.length_drop, List.length_cons]
                simp only [List.length_cons] at hg; omega)
          have h2 := ih rest.length ((c :: rest).drop pat.length) hlen
            (by simp only [List.length_drop, List.length_cons]; omega)
          rw [h1, h2]
        · simp only [countOccAux, if_neg h]
          have hlen : rest.length ≤ n := by
            simp only [List.length_cons] at hs; omega
          rw [ih g rest hlen (by simp only [List.length_cons] at hg; omega),
            ih rest.length rest hlen (Nat.le_refl _)]

theorem countOcc_nil (pat : List Char) : countOcc pat [] = 0 := rfl

/-- Unfolding step of the scan when a match starts at the head. -/
theorem countOcc_cons_pos (pat : List Char) (c : Char) (rest : List Char)
    (h1 : pat ≠ []) (h2 : pat.isPrefixOf (c :: rest) = true) :
    countOcc pat (c :: rest) = 1 + countOcc pat ((c :: rest).drop pat.length) := by
  have hplen : 1 ≤ pat.length := by
    cases pat with
    | nil => exact absurd rfl h1
    | cons _ _ => simp
  show countOccAux pat (rest.length + 1) (c :: rest) = _
  simp only [countOccAux, if_pos (And.intro h1 h2)]
  congr 1
  exact countOccAux_fuel pat rest.length rest.length ((c :: rest).drop pat.length)
    (by simp only [List.length_drop, List.length_cons]; omega)
    (by simp only [List.length_drop, List.length_cons]; omega)

/-- Unfolding step of the scan when no match starts at the head. -/
theorem countOcc_cons_neg (pat : List Char) (c : Char) (rest : List Char)
    (h : ¬(pat ≠ [] ∧ pat.isPrefixOf (c :: rest) = true)) :
    countOcc pat (c :: rest) = countOcc pat rest := by
  show countOccAux pat (rest.length + 1) (c :: rest) = _
  simp only [countOccAux, if_neg h]
  rfl

/-! ### Structure of the occurrence count

The lemmas below let the count of a fixed literal pattern be computed across
string concatenations: a count starts with an occurrence exactly at a
pattern prefix, segments free of the pattern head contribute nothing, and a
concatenation whose right part starts with a character outside the pattern
splits additively. -/

/-- A occurrence at the very front is counted once and the scan jumps it. -/
theorem countOcc_prefix_self (q : Char) (P b : List Char) :
    countOcc (q :: P) (q :: (P ++ b)) = 1 + countOcc (q :: P) b := by
  have hpre : (q :: P).isPrefixOf ((q :: P) ++ b) = true :=
    (isPrefixOf_iff_exists_append _ _).mpr ⟨b, rfl⟩
  have h := countOcc_cons_pos (q :: P) q (P ++ b) (by simp) hpre
  have hdrop : (q :: (P ++ b)).drop (q :: P).length = b := List.drop_left (q :: P) b
  rw [h, hdrop]

/-- A segment containing no copy of the pattern head contributes nothing. -/
theorem countOcc_append_of_head_notin (q : Char) (P : List Char) :
    ∀ a b : List Char, (∀ c ∈ a, ¬c = q) →
      countOcc (q :: P) (a ++ b) = countOcc (q :: P) b := by
  intro a
  induction a with
  | nil => intro b _; rfl
  | cons c a ih =>
    intro b ha
    have hcq : ¬c = q := ha c (by simp)
    have hnp : (q :: P).isPrefixOf (c :: (a ++ b)) = false := by
      simp [List.isPrefixOf]
      intro h
      exact absurd h.symm hcq
    rw [show (c :: a) ++ b = c :: (a ++ b) from rfl,
      countOcc_cons_neg _ _ _ (by simp [hnp])]
    exact ih b (fun x hx => ha x (by simp [hx]))

/-- If no occurrence straddles the junction of a concatenation, the count of
the concatenation is the sum of the counts of the parts. -/
theorem countOcc_append_split (P : List Char) (hP : P ≠ []) :
    ∀ n (a b : List Char), a.length ≤ n →
      (∀ i, i < a.length → P.isPrefixOf ((a ++ b).drop i) = true →
        i + P.length ≤ a.length) →
      countOcc P (a ++ b) = countOcc P a + countOcc P b := by
  have hplen : 1 ≤ P.length := by
    cases P with
    | nil => exact absurd rfl hP
    | cons _ _ => simp
  intro n
  induction n with
  | zero =>
    intro a b ha _
    have : a = [] := List.length_eq_zero.mp (Nat.le_zero.mp ha)
    subst this
    simp [countOcc_nil]
  | succ n ih =>
    intro a b ha hspan
    cases a with
    | nil => simp [countOcc_nil]
    | cons c a =>
      by_cases hpre : P.isPrefixOf ((c :: a) ++ b) = true
      · have hle : P.length ≤ (c :: a).length := by
          have := hspan 0 (by simp) (by simpa using hpre)
          omega
        obtain ⟨t, ht⟩ := (isPrefixOf_iff_exists_append _ _).mp hpre
        have htake : (c :: a).take P.length = P := by
          have h1 : ((c :: a) ++ b).take P.length = P := by
            rw [ht, List.take_left]
          rw [List.take_append_eq_append_take, Nat.sub_eq_zero_of_le hle] at h1
          simpa using h1
        have hpre2 : P.isPrefixOf (c :: a) = true := by
          have hsplit : (c :: a) = (c :: a).take P.length ++ (c :: a).drop P.length :=
            (List.take_append_drop _ _).symm
          rw [htake] at hsplit
          exact (isPrefixOf_iff_exists_append _ _).mpr ⟨(c :: a).drop P.length, hsplit⟩
        have hdropappend : ((c :: a) ++ b).drop P.length = (c :: a).drop P.length ++ b := by
          rw [List.drop_append_eq_append_drop, Nat.sub_eq_zero_of_le hle]
          simp
        have hstep : countOcc P ((c :: a) ++ b) =
            1 + countOcc P ((c :: a).drop P.length ++ b) := by
          have h := countOcc_cons_pos P c (a ++ b) hP (by simpa using hpre)
          rw [show (c :: a) ++ b = c :: (a ++ b) from rfl, h]
          congr 1
          rw [show c :: (a ++ b) = (c :: a) ++ b from rfl, hdropappend]
        have hstep2 : countOcc P (c :: a) =
            1 + countOcc P ((c :: a).drop P.length) :=
          countOcc_cons_pos P c a hP hpre2
        have hlen2 : ((c :: a).drop P.length).length ≤ n := by
          simp only [List.length_drop, List.length_cons]
          simp only [List.length_cons] at ha
          omega
        have hspan2 : ∀ i, i < ((c :: a).drop P.length).length →
            P.isPrefixOf (((c :: a).drop P.length ++ b).drop i) = true →
            i + P.length ≤ ((c :: a).drop P.length).length := by
          intro i hi hp
          have hdd : ((c :: a).drop P.length ++ b).drop i =
              ((c :: a) ++ b).drop (P.length + i) := by
            rw [← hdropappend, List.drop_drop, Nat.add_comm]
          rw [hdd] at hp
          simp only [List.length_drop, List.length_cons] at hi ⊢
          have hlt : P.length + i < (c :: a).length := by
            simp only [List.length_cons]
            omega
          have := hspan (P.length + i) hlt hp
          simp only [List.length_cons] at this ⊢
          omega
        rw [hstep, hstep2, ih _ b hlen2 hspan2]
        omega
      · have hpre2 : ¬P.isPrefixOf (c :: a) = true := by
          intro hcon
          obtain ⟨t, ht⟩ := (isPrefixOf_iff_exists_append _ _).mp hcon
          have : P.isPrefixOf ((c :: a) ++ b) = true :=
            (isPrefixOf_iff_exists_append _ _).mpr ⟨t ++ b, by rw [ht]; simp⟩
          exact absurd this hpre
        have hstep : countOcc P ((c :: a) ++ b) = countOcc P (a ++ b) := by
          rw [show (c :: a) ++ b = c :: (a ++ b) from rfl]
          exact countOcc_cons_neg _ _ _ (fun hand => hpre hand.2)
        have hstep2 : countOcc P (c :: a) = countOcc P a :=
          countOcc_cons_neg _ _ _ (fun hand => hpre2 hand.2)
        have hlen2 : a.length ≤ n := by
          simp only [List.length_cons] at ha; omega
        have hspan2 : ∀ i, i < a.length → P.isPrefixOf ((a ++ b).drop i) = true →
            i + P.length ≤ a.length := by
          intro i hi hp
          have hdd : (a ++ b).drop i = ((c :: a) ++ b).drop (i + 1) := rfl
          rw [hdd] at hp
          have := hspan (i + 1) (by simp only [List.length_cons]; omega) hp
          simp only [List.length_cons] at this
          omega
        rw [hstep, hstep2, ih _ b hlen2 hspan2]

/-- Splitting a concatenation at a character that is not in the pattern. -/
theorem countOcc_append_cons (q : Char) (P : List Char) (a : List Char)
    (c : Char) (b : List Char) (hc : ¬c ∈ q :: P) :
    countOcc (q :: P) (a ++ c :: b) =
      countOcc (q :: P) a + countOcc (q :: P) (c :: b) := by
  apply countOcc_append_split (q :: P) (by simp) a.length a (c :: b) (Nat.le_refl _)
  intro i hi hp
  by_contra hcon
  have hlt : a.length - i < (q :: P).length := by omega
  obtain ⟨t, ht⟩ := (isPrefixOf_iff_exists_append _ _).mp hp
  have hdrop : (a ++ c :: b).drop i = a.drop i ++ c :: b := by
    rw [List.drop_append_eq_append_drop, Nat.sub_eq_zero_of_le (Nat.le_of_lt hi)]
    simp
  rw [hdrop] at ht
  have hlen : (a.drop i).length = a.length - i := by simp
  have hlen2 : (a.drop i).length ≤ (q :: P).length := by omega
  have hdrop2 : c :: b = (q :: P).drop (a.drop i).length ++ t := by
    have h1 := congrArg (List.drop (a.drop i).length) ht
    rw [List.drop_left] at h1
    rw [h1, List.drop_append_eq_append_drop,
      Nat.sub_eq_zero_of_le hlen2]
    simp
  have hne : (q :: P).drop (a.drop i).length ≠ [] := by
    intro hnil
    have := congrArg List.length hnil
    simp only [List.length_drop, List.length_cons, List.length_nil] at this
    simp only [List.length_cons] at hlt hlen2
    omega
  cases hpd : (q :: P).drop (a.drop i).length with
  | nil => exact absurd hpd hne
  | cons c2 t2 =>
    rw [hpd] at hdrop2
    have hc2 : c2 = c := by
      have := hdrop2
      simp at this
      exact this.1.symm
    have hmem : c2 ∈ q :: P := by
      have hsub : (q :: P).drop (a.drop i).length ⊆ q :: P := List.drop_subset _ _
      exact hsub (by rw [hpd]; simp)
    rw [hc2] at hmem
    exact absurd hmem hc

/-- A string without the pattern as substring has occurrence count zero. -/
theorem countOcc_eq_zero_of_not_contains (pat : List Char) :
    ∀ s, containsL pat s = false → countOcc pat s = 0 := by
  intro s
  induction s with
  | nil => intro _; rfl
  | cons c rest ih =>
    intro h
    simp only [containsL, Bool.or_eq_false_iff] at h
    rw [countOcc_cons_neg _ _ _ (by simp [h.1])]
    exact ih h.2

/-- A string containing the pattern as substring has at least one counted
occurrence. -/
theorem one_le_countOcc_of_contains (q : Char) (P : List Char) :
    ∀ s, containsL (q :: P) s = true → 1 ≤ countOcc (q :: P) s := by
  intro s
  induction s with
  | nil =>
    intro h
    simp [containsL, List.isPrefixOf] at h
  | cons c rest ih =>
    intro h
    simp only [containsL, Bool.or_eq_true] at h
    by_cases hpre : (q :: P).isPrefixOf (c :: rest) = true
    · rw [countOcc_cons_pos _ _ _ (by simp) hpre]
      omega
    · rw [countOcc_cons_neg _ _ _ (fun hand => hpre hand.2)]
      exact ih (by rcases h with h | h; exact absurd h hpre; exact h)

/-! ### Trimming and lowercasing versus the occurrence count -/

/-- Dropping a leading all-whitespace segment. -/
theorem dropWhile_ws_append (w x : List Char) (hw : ∀ c ∈ w, isJsWs c = true) :
    (w ++ x).dropWhile isJsWs = x.dropWhile isJsWs := by
  induction w with
  | nil => simp
  | cons c w ih =>
    have hc : isJsWs c = true := hw c (by simp)
    rw [show (c :: w) ++ x = c :: (w ++ x) from rfl, List.dropWhile_cons, if_pos hc]
    exact ih (fun d hd => hw d (by simp [hd]))

/-- Dropping a trailing all-whitespace segment. -/
theorem trimEndL_append_ws (y w : List Char) (hw : ∀ c ∈ w, isJsWs c = true) :
    trimEndL (y ++ w) = trimEndL y := by
  unfold trimEndL
  rw [List.reverse_append, dropWhile_ws_append]
  intro c hc
  exact hw c (List.mem_reverse.mp hc)

/-- Leading whitespace does not affect the JS trim. -/
theorem jsTrimL_ws_left (w x : List Char) (hw : ∀ c ∈ w, isJsWs c = true) :
    jsTrimL (w ++ x) = jsTrimL x := by
  unfold jsTrimL
  rw [dropWhile_ws_append w x hw]

/-- Trailing whitespace does not affect the JS trim. -/
theorem jsTrimL_ws_right (x w : List Char) (hw : ∀ c ∈ w, isJsWs c = true) :
    jsTrimL (x ++ w) = jsTrimL x := by
  induction x with
  | nil =>
    unfold jsTrimL
    rw [List.nil_append, show ([] : List Char).dropWhile isJsWs = [] from rfl]
    have hdrop : w.dropWhile isJsWs = [] := by
      have := dropWhile_ws_append w [] hw
      simpa using this
    rw [hdrop]
  | cons c x ih =>
    by_cases hc : isJsWs c = true
    · unfold jsTrimL
      rw [show (c :: x) ++ w = c :: (x ++ w) from rfl, List.dropWhile_cons, if_pos hc,
        List.dropWhile_cons, if_pos hc]
      unfold jsTrimL at ih
      exact ih
    · unfold jsTrimL
      rw [show (c :: x) ++ w = c :: (x ++ w) from rfl, List.dropWhile_cons, if_neg hc,
        List.dropWhile_cons, if_neg hc,
        show c :: (x ++ w) = (c :: x) ++ w from rfl,
        trimEndL_append_ws (c :: x) w hw]

/-- Wrapping in whitespace does not affect the JS trim. -/
theorem jsTrimL_ws_wrap (w1 s w2 : List Char)
    (h1 : ∀ c ∈ w1, isJsWs c = true) (h2 : ∀ c ∈ w2, isJsWs c = true) :
    jsTrimL (w1 ++ s ++ w2) = jsTrimL s := by
  rw [List.append_assoc, jsTrimL_ws_left w1 (s ++ w2) h1, jsTrimL_ws_right s w2 h2]

/-- Lowercasing commutes with dropping leading whitespace. -/
theorem lowerL_dropWhile (l : List Char) :
    lowerL (l.dropWhile isJsWs) = (lowerL l).dropWhile isJsWs := by
  induction l with
  | nil => rfl
  | cons c l ih =>
    by_cases hc : isJsWs c = true
    · rw [List.dropWhile_cons, if_pos hc, show lowerL (c :: l) = asciiLower c :: lowerL l
        from rfl, List.dropWhile_cons, if_pos (by rw [isJsWs_asciiLower]; exact hc)]
      exact ih
    · rw [List.dropWhile_cons, if_neg hc, show lowerL (c :: l) = asciiLower c :: lowerL l
        from rfl, List.dropWhile_cons, if_neg (by rw [isJsWs_asciiLower]; exact hc)]

/-- Lowercasing commutes with the JS trim. -/
theorem lowerL_jsTrimL (l : List Char) :
    lowerL (jsTrimL l) = jsTrimL (lowerL l) := by
  unfold jsTrimL trimEndL
  rw [← lowerL_dropWhile]
  generalize l.dropWhile isJsWs = y
  show lowerL (y.reverse.dropWhile isJsWs).reverse = _
  have hrev : ∀ z : List Char, lowerL z.reverse = (lowerL z).reverse := by
    intro z
    simp [lowerL]
  rw [hrev, ← hrev y, lowerL_dropWhile]

/-- A pattern of non-whitespace characters occurs in a string exactly as
often as in its JS trim. -/
theorem countOcc_jsTrimL (q : Char) (P : List Char)
    (hq : isJsWs q = false) (hP : ∀ c ∈ q :: P, isJsWs c = false) (y : List Char) :
    countOcc (q :: P) (jsTrimL y) = countOcc (q :: P) y := by
  unfold jsTrimL
  have step1 : countOcc (q :: P) (y.dropWhile isJsWs) = countOcc (q :: P) y := by
    conv_rhs => rw [← List.takeWhile_append_dropWhile isJsWs y]
    rw [countOcc_append_of_head_notin q P (y.takeWhile isJsWs) (y.dropWhile isJsWs)]
    intro c hc
    intro hcq
    subst hcq
    rw [List.mem_takeWhile_imp hc] at hq
    exact Bool.false_ne_true hq.symm
  rw [← step1]
  generalize y.dropWhile isJsWs = z
  have hz : z = trimEndL z ++ (z.reverse.takeWhile isJsWs).reverse := by
    unfold trimEndL
    have h1 : z.reverse = z.reverse.takeWhile isJsWs ++ z.reverse.dropWhile isJsWs :=
      (List.takeWhile_append_dropWhile isJsWs z.reverse).symm
    have h2 := congrArg List.reverse h1
    rw [List.reverse_reverse, List.reverse_append] at h2
    exact h2
  have hwsuffix : ∀ c ∈ (z.reverse.takeWhile isJsWs).reverse, isJsWs c = true := by
    intro c hc
    exact List.mem_takeWhile_imp (List.mem_reverse.mp hc)
  conv_rhs => rw [hz]
  cases hsuf : (z.reverse.takeWhile isJsWs).reverse with
  | nil => simp
  | cons c w =>
    rw [hsuf] at hwsuffix
    have hcnotin : ¬c ∈ q :: P := by
      intro hmem
      have hcws : isJsWs c = true := hwsuffix c (by simp)
      rw [hP c hmem] at hcws
      exact Bool.false_ne_true hcws
    rw [countOcc_append_cons q P (trimEndL z) c w hcnotin]
    have hzero : countOcc (q :: P) (c :: w) = 0 := by
      have := countOcc_append_of_head_notin q P (c :: w) []
        (fun d hd hdq => by
          have hdws : isJsWs d = true := hwsuffix d hd
          rw [hdq, hq] at hdws
          exact Bool.false_ne_true hdws)
      simpa using this
    rw [hzero]
    omega

/-! ## The blank-line split

Both app variants split the staging text with
`inputText.trim().split(/\n\s*\n/)`. For that pattern the JS engine scans
left to right; at a line feed it tries to extend greedily with whitespace
and must end on another line feed, so a separator is a line feed, the
following whitespace run up to and including the last line feed inside it.
`lastNlIdx` finds that last line feed; `splitBlankAux` is the scan, with
fuel (every step consumes at least one character). -/

/-- Index of the last line feed of a list, if any. -/
def lastNlIdx : List Char → Option Nat
  | [] => none
  | c :: rest =>
    match lastNlIdx rest with
    | some k => some (k + 1)
    | none => if c = '\n' then some 0 else none

def splitBlankAux : Nat → List Char → List Char → List (List Char)
  | 0, acc, _ => [acc.reverse]
  | _ + 1, acc, [] => [acc.reverse]
  | fuel + 1, acc, c :: rest =>
    if c = '\n' then
      match lastNlIdx (rest.takeWhile isJsWs) with
      | some k => acc.reverse :: splitBlankAux fuel [] (rest.drop (k + 1))
      | none => splitBlankAux fuel (c :: acc) rest
    else
      splitBlankAux fuel (c :: acc) rest

/-- JS `s.split(/\n\s*\n/)` on a character list. -/
def splitBlank (l : List Char) : List (List Char) := splitBlankAux l.length [] l

/-! ## Batching the staging text

Multi-file variant (handleInitialScan):
`inputText.trim().split(/\n\s*\n/).filter(c => c.includes("Question:")).slice(0, 6)`.
index.tsx variant (handleProcess):
`inputText.trim().split(/\n\s*\n/).filter(c => c.toLowerCase().includes("question:")).slice(0, 6)`. -/

/-- Chunks of the staging text that the multi-file variant sends on. -/
def extractBatchOut (s : String) : List String :=
  (((splitBlank (jsTrimL s.data)).filter
    (fun c => containsL "Question:".data c)).take 6).map String.mk

/-- Chunks of the staging text that the index.tsx variant sends on. -/
def extractBatchIdx (s : String) : List String :=
  (((splitBlank (jsTrimL s.data)).filter
    (fun c => containsL "question:".data (lowerL c))).take 6).map String.mk

/-! ## SHA-256

The repository hashes normalized question text with the Web Crypto API
(crypto.subtle.digest with SHA-256). The primitive is not repository code;
it is implemented here from FIPS 180-4 over byte lists, with 32-bit words
as Nat reduced modulo 2 ^ 32. -/

/-- Right rotation of a 32-bit word. -/
def rotr32 (n w : Nat) : Nat := (w / 2 ^ n + w % 2 ^ n * 2 ^ (32 - n)) % 2 ^ 32

/-- Right shift of a 32-bit word. -/
def shr32 (n w : Nat) : Nat := w / 2 ^ n

def bsig0 (w : Nat) : Nat := rotr32 2 w ^^^ rotr32 13 w ^^^ rotr32 22 w
def bsig1 (w : Nat) : Nat := rotr32 6 w ^^^ rotr32 11 w ^^^ rotr32 25 w
def ssig0 (w : Nat) : Nat := rotr32 7 w ^^^ rotr32 18 w ^^^ shr32 3 w
def ssig1 (w : Nat) : Nat := rotr32 17 w ^^^ rotr32 19 w ^^^ shr32 10 w
def ch32 (x y z : Nat) : Nat := (x &&& y) ^^^ ((4294967295 ^^^ x) &&& z)
def maj32 (x y z : Nat) : Nat := (x &&& y) ^^^ (x &&& z) ^^^ (y &&& z)

/-- The eight working variables of the compression function. -/
structure Sha2State where
  a : Nat
  b : Nat
  c : Nat
  d : Nat
  e : Nat
  f : Nat
  g : Nat
  h : Nat

/-- The eight initial hash values of FIPS 180-4 section 5.3.3, written in
decimal. -/
def sha2Init : Sha2State :=
  ⟨1779033703, 3144134277, 1013904242, 2773480762,
   1359893119, 2600822924, 528734635, 1541459225⟩

/-- The sixty-four round constants of FIPS 180-4 section 4.2.2, written in
decimal. -/
def sha2K : List Nat :=
  [1116352408, 1899447441, 3049323471, 3921009573, 961987163,
   1508970993, 2453635748, 2870763221, 3624381080, 310598401,
   607225278, 1426881987, 1925078388, 2162078206, 2614888103,
   3248222580, 3835390401, 4022224774, 264347078, 604807628,
   770255983, 1249150122, 1555081692, 1996064986, 2554220882,
   2821834349, 2952996808, 3210313671, 3336571891, 3584528711,
   113926993, 338241895, 666307205, 773529912, 1294757372,
   1396182291, 1695183700, 1986661051, 2177026350, 2456956037,
   2730485921, 2820302411, 3259730800, 3345764771, 3516065817,
   3600352804, 4094571909, 275423344, 430227734, 506948616,
   659060556, 883997877, 958139571, 1322822218, 1537002063,
   1747873779, 1955562222, 2024104815, 2227730452, 2361852424,
   2428436474, 2756734187, 3204031479, 3329325298]

/-- One round of the compression function. -/
def sha2Round (st : Sha2State) (kw : Nat × Nat) : Sha2State :=
  let t1 := (st.h + bsig1 st.e + ch32 st.e st.f st.g + kw.1 + kw.2) % 2 ^ 32
  let t2 := (bsig0 st.a + maj32 st.a st.b st.c) % 2 ^ 32
  ⟨(t1 + t2) % 2 ^ 32, st.a, st.b, st.c, (st.d + t1) % 2 ^ 32, st.e, st.f, st.g⟩

/-- Big-endian 32-bit word from four bytes. -/
def word32 (b0 b1 b2 b3 : Nat) : Nat :=
  b0 % 256 * 16777216 + b1 % 256 * 65536 + b2 % 256 * 256 + b3 % 256

/-- The sixteen message-schedule words of a 64-byte block. -/
def schedule16 : List Nat → List Nat
  | b0 :: b1 :: b2 :: b3 :: rest => word32 b0 b1 b2 b3 :: schedule16 rest
  | _ => []

/-- Extend the message schedule by the given number of words. -/
def extendSchedule : Nat → List Nat → List Nat
  | 0, ws => ws
  | k + 1, ws =>
    let n := ws.length
    let w := (ssig1 (ws.getD (n - 2) 0) + ws.getD (n - 7) 0 +
      ssig0 (ws.getD (n - 15) 0) + ws.getD (n - 16) 0) % 2 ^ 32
    extendSchedule k (ws ++ [w])

/-- Process one 64-byte block. -/
def sha2Block (st : Sha2State) (block : List Nat) : Sha2State :=
  let ws := extendSchedule 48 (schedule16 block)
  let t := (sha2K.zip ws).foldl sha2Round st
  ⟨(st.a + t.a) % 2 ^ 32, (st.b + t.b) % 2 ^ 32, (st.c + t.c) % 2 ^ 32,
   (st.d + t.d) % 2 ^ 32, (st.e + t.e) % 2 ^ 32, (st.f + t.f) % 2 ^ 32,
   (st.g + t.g) % 2 ^ 32, (st.h + t.h) % 2 ^ 32⟩

/-- The eight length bytes (big-endian bit count) of the padding. -/
def lenBytes (n : Nat) : List Nat :=
  [n / 2 ^ 56 % 256, n / 2 ^ 48 % 256, n / 2 ^ 40 % 256, n / 2 ^ 32 % 256,
   n / 2 ^ 24 % 256, n / 2 ^ 16 % 256, n / 2 ^ 8 % 256, n % 256]

/-- FIPS 180-4 padding: 0x80, zeros to 56 mod 64, then the bit length. -/
def padMessage (msg : List Nat) : List Nat :=
  msg ++ [128] ++ List.replicate ((64 - (msg.length + 9) % 64) % 64) 0 ++
    lenBytes (8 * msg.length)

/-- Split a byte list into 64-byte blocks (fuel-driven; the list length is
always enough fuel). -/
def chunks64 : Nat → List Nat → List (List Nat)
  | 0, _ => []
  | _ + 1, [] => []
  | fuel + 1, l => l.take 64 :: chunks64 fuel (l.drop 64)

/-- Big-endian bytes of a 32-bit word. -/
def wordBytes (w : Nat) : List Nat :=
  [w / 16777216 % 256, w / 65536 % 256, w / 256 % 256, w % 256]

/-- SHA-256 digest (32 bytes) of a byte list. -/
def sha256 (msg : List Nat) : List Nat :=
  let padded := padMessage msg
  let st := (chunks64 padded.length padded).foldl sha2Block sha2Init
  wordBytes st.a ++ wordBytes st.b ++ wordBytes st.c ++ wordBytes st.d ++
  wordBytes st.e ++ wordBytes st.f ++ wordBytes st.g ++ wordBytes st.h

/-- UTF-8 bytes of one code point (TextEncoder on one character). -/
def utf8Char (n : Nat) : List Nat :=
  if n < 128 then [n]
  else if n < 2048 then [192 + n / 64, 128 + n % 64]
  else if n < 65536 then [224 + n / 4096, 128 + n / 64 % 64, 128 + n % 64]
  else [240 + n / 262144, 128 + n / 4096 % 64, 128 + n / 64 % 64, 128 + n % 64]

/-- TextEncoder().encode on a character list. -/
def utf8Encode (l : List Char) : List Nat :=
  (l.map (fun c => utf8Char (charCode c))).flatten

/-- Hexadecimal digit characters, lowercase. -/
def hexDigit (n : Nat) : Char := "0123456789abcdef".data.getD n '0'

/-- JS `b.toString(16).padStart(2, "0")` for a byte. -/
def hexByte (b : Nat) : List Char := [hexDigit (b / 16 % 16), hexDigit (b % 16)]

/-- Lowercase hex encoding of a byte list. -/
def hexEncode (bytes : List Nat) : String :=
  String.mk (bytes.map hexByte).flatten

/-- getQuestionHash from firebase.ts (identical in index.tsx): the SHA-256
digest of the UTF-8 bytes of the trimmed, lowercased text, encoded as
lowercase hex. -/
def getQuestionHash (s : String) : String :=
  hexEncode (sha256 (utf8Encode (lowerL (jsTrimL s.data))))

/-! ## Data model (types.ts and the index.tsx copies) -/

/-- An item returned by the answer extraction call. -/
structure ExtractedQuestion where
  id : String
  text : String
  correctAnswer : String
  explanation : String
deriving DecidableEq

/-- A question sent to the insight generation call. -/
structure AZ104Question where
  text : String
  correctAnswer : String
  explanation : String
deriving DecidableEq

structure GroundingSource where
  title : String
  uri : String
deriving DecidableEq

structure InsightBlock where
  foundationalRule : String
  whyItWorks : String
  analogy : String
  analogousFoundationalConcept : String
  commonConfusion : String
  examEliminationCue : String
  memoryHook : String
deriving DecidableEq

structure ExtractionResult where
  domain : String
  blocks : List InsightBlock
  sources : List GroundingSource
deriving DecidableEq

/-- A persisted vault document, in the field order of the setDoc call:
masteredAt (ISO timestamp string), domain, foundationalRule, hash. -/
structure VaultDoc where
  masteredAt : String
  domain : String
  foundationalRule : String
  hash : String
deriving DecidableEq

/-! ## Firestore vault model (firebase.ts; identical logic inlined in
index.tsx)

The vault is one collection of documents keyed by the content hash. A
Firestore setDoc on an existing key replaces the document. Fallibility of
the store is made explicit: `configured` models whether a projectId is
available (getDb throws otherwise) and `failing` models a network or
permission failure of any read or write. The Except layer mirrors the
try/catch structure of the source. -/

structure StoreEnv where
  configured : Bool
  failing : Bool
deriving DecidableEq

/-- The vault collection: association list from document key (content hash)
to document. -/
abbrev Store := List (String × VaultDoc)

def vaultLookup : Store → String → Option VaultDoc
  | [], _ => none
  | (k2, v) :: rest, k => if k2 = k then some v else vaultLookup rest k

/-- Firestore setDoc semantics: insert, or replace the document already at
that key. -/
def vaultSet : Store → String → VaultDoc → Store
  | [], k, v => [(k, v)]
  | (k2, v2) :: rest, k, v =>
    if k2 = k then (k, v) :: rest else (k2, v2) :: vaultSet rest k v

/-- getDb: throws when no projectId is configured. -/
def getDbE (env : StoreEnv) : Except String Unit :=
  if env.configured = false then .error "Firebase not configured" else .ok ()

/-- getDoc followed by exists(): may fail. -/
def getDocE (env : StoreEnv) (store : Store) (hash : String) : Except String Bool :=
  if env.failing = true then .error "firestore unavailable"
  else .ok (vaultLookup store hash).isSome

/-- setDoc: may fail. -/
def setDocE (env : StoreEnv) (store : Store) (hash : String) (doc : VaultDoc) :
    Except String Store :=
  if env.failing = true then .error "firestore unavailable"
  else .ok (vaultSet store hash doc)

/-- Lexicographic comparison of character lists by code point, the order
Firestore uses for string fields in orderBy. -/
def lexLe : List Char → List Char → Bool
  | [], _ => true
  | _ :: _, [] => false
  | a :: as, b :: bs =>
    if charCode a < charCode b then true
    else if charCode b < charCode a then false
    else lexLe as bs

/-- Descending comparison on the masteredAt field. -/
def docGe (x y : VaultDoc) : Bool := lexLe y.masteredAt.data x.masteredAt.data

def insertDesc (x : VaultDoc) : List VaultDoc → List VaultDoc
  | [] => [x]
  | y :: ys => if docGe x y then x :: y :: ys else y :: insertDesc x ys

/-- The collection ordered by masteredAt descending (the orderBy of the
fetch query). -/
def sortDesc : List VaultDoc → List VaultDoc
  | [] => []
  | x :: xs => insertDesc x (sortDesc xs)

/-- getDocs over the full-collection query ordered by masteredAt
descending: may fail. -/
def getDocsE (env : StoreEnv) (store : Store) : Except String (List VaultDoc) :=
  if env.failing = true then .error "firestore unavailable"
  else .ok (sortDesc (store.map (fun p => p.2)))

/-- checkDuplicate from firebase.ts: getDb, getDoc, exists(), with every
failure caught and converted to false. -/
def checkDuplicate (env : StoreEnv) (store : Store) (hash : String) : Bool :=
  match getDbE env with
  | .error _ => false
  | .ok _ =>
    match getDocE env store hash with
    | .error _ => false
    | .ok b => b

/-- saveToVault from firebase.ts: getDb, setDoc of the document keyed by
the hash, with every failure caught and dropped (the store is then
unchanged; the function always returns normally and makes no second
attempt). -/
def saveToVault (env : StoreEnv) (store : Store) (hash domain rule now : String) : Store :=
  match getDbE env with
  | .error _ => store
  | .ok _ =>
    match setDocE env store hash ⟨now, domain, rule, hash⟩ with
    | .error _ => store
    | .ok store2 => store2

/-- fetchVault from firebase.ts: the full-collection query ordered by
masteredAt descending, with every failure caught and converted to the empty
list. -/
def fetchVault (env : StoreEnv) (store : Store) : List VaultDoc :=
  match getDbE env with
  | .error _ => []
  | .ok _ =>
    match getDocsE env store with
    | .error _ => []
    | .ok docs => docs

/-! ## Gemini service model (geminiService.ts)

The network call and JSON.parse are abstract parameters: `net` is the
response text of the generateContent call (or its failure), `parse` is
JSON.parse combined with the TypeScript cast (none models a parse
exception). The API key check precedes the network call in the source;
accordingly the no-key error below does not depend on `net`. -/

/-- getApiKey: localStorage first (empty string models both null and the
stored empty string, which are equally falsy), environment second. -/
def getApiKey (localKey envKey : String) : String :=
  if localKey ≠ "" then localKey else envKey

/-- One pass of the global replace of the fence pattern (three backticks
followed by the word json and an optional line feed, or an optional line
feed followed by three backticks), compiled to a scan with the alternation
and greediness order of the JS engine. -/
def stripFencesAux : Nat → List Char → List Char
  | 0, l => l
  | _ + 1, [] => []
  | fuel + 1, c :: rest =>
    if "```json\n".data.isPrefixOf (c :: rest) then stripFencesAux fuel ((c :: rest).drop 8)
    else if "```json".data.isPrefixOf (c :: rest) then stripFencesAux fuel ((c :: rest).drop 7)
    else if "\n```".data.isPrefixOf (c :: rest) then stripFencesAux fuel ((c :: rest).drop 4)
    else if "```".data.isPrefixOf (c :: rest) then stripFencesAux fuel ((c :: rest).drop 3)
    else c :: stripFencesAux fuel rest

/-- The code-fence strip applied to the AI response text. -/
def stripFences (s : String) : String :=
  String.mk (stripFencesAux s.data.length s.data)

/-- cleanAndExtractAnswers: key guard, then the extraction request, then a
bare JSON.parse whose failure propagates as the platform exception. -/
def cleanAndExtractAnswers (localKey envKey : String) (net : Except String String)
    (parse : String → Option (List ExtractedQuestion)) :
    Except String (List ExtractedQuestion) :=
  if getApiKey localKey envKey = "" then
    .error "No API key configured. Please add your Gemini API key in Settings."
  else
    match net with
    | .error e => .error e
    | .ok t =>
      match parse (if t = "" then "[]" else t) with
      | some qs => .ok qs
      | none => .error "SyntaxError: JSON.parse"

/-- processInsights: key guard, then the insight request, then fence strip
and trim, then JSON.parse inside try/catch with the user-facing message. -/
def processInsights (localKey envKey : String) (net : Except String String)
    (parse : String → Option ExtractionResult) (srcs : List GroundingSource) :
    Except String ExtractionResult :=
  if getApiKey localKey envKey = "" then
    .error "No API key configured. Please add your Gemini API key in Settings."
  else
    match net with
    | .error e => .error e
    | .ok t =>
      match parse (jsTrimS (stripFences (if t = "" then "{}" else t))) with
      | some r => .ok { r with sources := srcs }
      | none => .error "Invalid structure returned from AI. Try a smaller batch."

/-! ## App model

The staged-question counter, the push handler, and the scan flow of both
variants. The multi-file variant counts the pattern Question-colon-space
case-sensitively; the index.tsx variant counts Question-colon
case-insensitively and trims the previous text before appending. -/

/-- stagedCount of the multi-file App: occurrences of the pattern
Question-colon-space in the staging textarea. -/
def stagedCount (s : String) : Nat := countOcc "Question: ".data s.data

/-- currentStagedCount of index.tsx: case-insensitive occurrences of the
pattern Question-colon in the staging textarea. -/
def currentStagedCount (s : String) : Nat :=
  countOcc "question:".data (lowerL s.data)

/-- The block pushed into the staging area for one extracted question. -/
def fmtQuestion (q : ExtractedQuestion) : String :=
  "Question: " ++ q.text ++ "\nCorrect Answer: " ++ q.correctAnswer ++
    "\nExplanation: " ++ q.explanation

/-- handlePushToEngine of the multi-file App: refuse at six staged items,
else append the formatted question after a blank line (or alone into an
empty area). -/
def handlePushToEngineOut (q : ExtractedQuestion) (inputText : String) : String :=
  if 6 ≤ stagedCount inputText then inputText
  else if inputText ≠ "" then inputText ++ "\n\n" ++ fmtQuestion q
  else fmtQuestion q

/-- handlePushToEngine of index.tsx: the count check inside the state
setter, then the previous text is trimmed before the append. -/
def handlePushToEngineIdx (q : ExtractedQuestion) (prev : String) : String :=
  if 6 ≤ currentStagedCount prev then prev
  else if jsTrimS prev ≠ "" then jsTrimS prev ++ "\n\n" ++ fmtQuestion q
  else fmtQuestion q

/-- Outcome of a scan of the staging area (the view state the handlers
leave behind). -/
inductive ScanResult where
  | noInput
  | scanErrorResult (msg : String)
  | noNewQuestions
  | engineOffline
  | aiFailed (msg : String)
  | pendingResult (questions hashes : List String) (duplicateIndices : List Nat)
  | successResult (extraction : ExtractionResult)
deriving DecidableEq

/-- The write loop of executeProcessing: one saveToVault per insight block,
guarded by the truthiness of the hash at the block index (out-of-range is
undefined, hence falsy, hence skipped). -/
def writeBlocks (env : StoreEnv) (hashes : List String) (domain now : String) :
    List InsightBlock → Nat → Store → Store
  | [], _, store => store
  | b :: bs, i, store =>
    writeBlocks env hashes domain now bs (i + 1)
      (if hashes.getD i "" ≠ ""
       then saveToVault env store (hashes.getD i "") domain b.foundationalRule now
       else store)

/-- executeProcessing of the multi-file App: empty-batch guard, key guard,
the insight call (`ai` abstracts processInsights applied to the formatted
batch), then the vault writes, then success with the extraction. -/
def executeProcessing (env : StoreEnv) (apiKeySet : Bool)
    (ai : List AZ104Question → Except String ExtractionResult)
    (batch hashes : List String) (now : String) (store : Store) :
    ScanResult × Store :=
  if batch = [] then (.noNewQuestions, store)
  else if apiKeySet = false then (.engineOffline, store)
  else
    match ai (batch.map fun rq => ⟨rq, "Verified", "Verified"⟩) with
    | .error e => (.aiFailed e, store)
    | .ok ext => (.successResult ext, writeBlocks env hashes ext.domain now ext.blocks 0 store)

/-- Indices at which a Bool list is true (the duplicateIndices
computation). -/
def trueIndices : List Bool → Nat → List Nat
  | [], _ => []
  | d :: ds, i => if d then i :: trueIndices ds (i + 1) else trueIndices ds (i + 1)

/-- handleInitialScan of the multi-file App: batch the staging text, hash
every chunk, check every hash against the vault, then either hold the
pending batch with its duplicate indices for the user or process at once. -/
def handleInitialScan (env : StoreEnv) (apiKeySet : Bool)
    (ai : List AZ104Question → Except String ExtractionResult)
    (inputText now : String) (store : Store) : ScanResult × Store :=
  if jsTrimS inputText = "" then (.noInput, store)
  else
    let rawQuestions := extractBatchOut inputText
    if rawQuestions = [] then
      (.scanErrorResult "No valid questions detected. Ensure you push questions from the Scraper first.", store)
    else
      let hashes := rawQuestions.map getQuestionHash
      let duplicates := hashes.map (checkDuplicate env store)
      let duplicateIndices := trueIndices duplicates 0
      if duplicateIndices ≠ [] then
        (.pendingResult rawQuestions hashes duplicateIndices, store)
      else executeProcessing env apiKeySet ai rawQuestions hashes now store

/-- The pending batch held for the duplicate prompt. -/
structure PendingBatch where
  questions : List String
  hashes : List String
  duplicateIndices : List Nat
deriving DecidableEq

/-- Keep the entries whose position is not among the given indices (the
filter of the onSkipDuplicates callback). -/
def filterNotIdx {α : Type} (l : List α) (idx : List Nat) : List α :=
  (l.enum.filter (fun p => ¬idx.contains p.1)).map (fun p => p.2)

/-- onProcessAll: process the full pending batch, duplicates included. -/
def onProcessAll (env : StoreEnv) (apiKeySet : Bool)
    (ai : List AZ104Question → Except String ExtractionResult)
    (pb : PendingBatch) (now : String) (store : Store) : ScanResult × Store :=
  executeProcessing env apiKeySet ai pb.questions pb.hashes now store

/-- onSkipDuplicates: process the pending batch without the duplicate
positions. -/
def onSkipDuplicates (env : StoreEnv) (apiKeySet : Bool)
    (ai : List AZ104Question → Except String ExtractionResult)
    (pb : PendingBatch) (now : String) (store : Store) : ScanResult × Store :=
  executeProcessing env apiKeySet ai
    (filterNotIdx pb.questions pb.duplicateIndices)
    (filterNotIdx pb.hashes pb.duplicateIndices) now store

/-- Every operation of the app that touches the vault collection. -/
inductive AppOp where
  | scanOp (apiKeySet : Bool) (ai : List AZ104Question → Except String ExtractionResult)
      (inputText now : String)
  | processAllOp (apiKeySet : Bool) (ai : List AZ104Question → Except String ExtractionResult)
      (pb : PendingBatch) (now : String)
  | skipDuplicatesOp (apiKeySet : Bool) (ai : List AZ104Question → Except String ExtractionResult)
      (pb : PendingBatch) (now : String)
  | saveOp (hash domain rule now : String)
  | fetchOp
  | checkOp (hash : String)

/-- Effect of an app operation on the vault collection. -/
def applyOp (env : StoreEnv) : AppOp → Store → Store
  | .scanOp apiKeySet ai inputText now, store =>
    (handleInitialScan env apiKeySet ai inputText now store).2
  | .processAllOp apiKeySet ai pb now, store =>
    (onProcessAll env apiKeySet ai pb now store).2
  | .skipDuplicatesOp apiKeySet ai pb now, store =>
    (onSkipDuplicates env apiKeySet ai pb now store).2
  | .saveOp hash domain rule now, store => saveToVault env store hash domain rule now
  | .fetchOp, store => store
  | .checkOp _, store => store

/-! ## Vault view filters (VaultView.tsx)

Date arithmetic is a platform primitive; it enters as an abstract record:
`toTime` is getTime of the parsed masteredAt string, `startOfDay` is the
millisecond value of setHours(0,0,0,0) on the parsed from-date, `endOfDay`
of setHours(23,59,59,999) on the parsed to-date, in the local timezone.
The source guards each bound with the truthiness of the computed
millisecond number, so a bound whose value is exactly 0 is dropped (NaN,
the other falsy value, is unreachable from the date picker and not
modeled). -/

structure DateSem where
  toTime : String → Int
  startOfDay : String → Int
  endOfDay : String → Int

/-- filteredItems of VaultView: search on rule or domain, lowercased
containment, plus the two optional date bounds. -/
def filteredItems (ds : DateSem) (search startDate endDate : String)
    (items : List VaultDoc) : List VaultDoc :=
  items.filter fun item =>
    (containsL (lowerL search.data) (lowerL item.foundationalRule.data) ||
     containsL (lowerL search.data) (lowerL item.domain.data)) &&
    (if startDate = "" then true
     else if ds.startOfDay startDate = 0 then true
     else decide (ds.startOfDay startDate ≤ ds.toTime item.masteredAt)) &&
    (if endDate = "" then true
     else if ds.endOfDay endDate = 0 then true
     else decide (ds.toTime item.masteredAt ≤ ds.endOfDay endDate))

/-! ## Order lemmas for the fetch query -/

theorem lexLe_total : ∀ a b : List Char, lexLe a b = true ∨ lexLe b a = true := by
  intro a
  induction a with
  | nil => intro b; left; rfl
  | cons x as ih =>
    intro b
    cases b with
    | nil => right; rfl
    | cons y bs =>
      by_cases h1 : charCode x < charCode y
      · left; simp [lexLe, h1]
      · by_cases h2 : charCode y < charCode x
        · right; simp [lexLe, h2]
        · rcases ih bs with h | h
          · left; simp [lexLe, h1, h2, h]
          · right; simp [lexLe, h1, h2, h]

theorem lexLe_trans :
    ∀ a b c : List Char, lexLe a b = true → lexLe b c = true → lexLe a c = true := by
  intro a
  induction a with
  | nil => intro b c _ _; rfl
  | cons x as ih =>
    intro b c hab hbc
    cases b with
    | nil => simp [lexLe] at hab
    | cons y bs =>
      cases c with
      | nil => simp [lexLe] at hbc
      | cons z cs =>
        simp only [lexLe] at hab hbc ⊢
        by_cases hxy : charCode x < charCode y
        · by_cases hyz : charCode y < charCode z
          · rw [if_pos (by omega)]
          · rw [if_neg hyz] at hbc
            by_cases hzy : charCode z < charCode y
            · rw [if_pos hzy] at hbc; exact absurd hbc (by simp)
            · rw [if_pos (by omega)]
        · rw [if_neg hxy] at hab
          by_cases hyx : charCode y < charCode x
          · rw [if_pos hyx] at hab; exact absurd hab (by simp)
          · rw [if_neg hyx] at hab
            by_cases hyz : charCode y < charCode z
            · rw [if_pos (by omega)]
            · rw [if_neg hyz] at hbc
              by_cases hzy : charCode z < charCode y
              · rw [if_pos hzy] at hbc; exact absurd hbc (by simp)
              · rw [if_neg hzy] at hbc
                rw [if_neg (by omega), if_neg (by omega)]
                exact ih bs cs hab hbc

theorem docGe_total (x y : VaultDoc) : docGe x y = true ∨ docGe y x = true :=
  (lexLe_total y.masteredAt.data x.masteredAt.data).elim Or.inl Or.inr

theorem docGe_trans (x y z : VaultDoc) (h1 : docGe x y = true) (h2 : docGe y z = true) :
    docGe x z = true :=
  lexLe_trans _ _ _ h2 h1

/-- Descending sortedness by masteredAt. -/
def SortedDesc (l : List VaultDoc) : Prop :=
  List.Pairwise (fun x y => docGe x y = true) l

theorem mem_insertDesc (x a : VaultDoc) :
    ∀ l, a ∈ insertDesc x l ↔ a = x ∨ a ∈ l := by
  intro l
  induction l with
  | nil => simp [insertDesc]
  | cons y ys ih =>
    by_cases h : docGe x y = true
    · simp [insertDesc, h]
    · simp [insertDesc, h, ih]
      tauto

theorem sortedDesc_insertDesc (x : VaultDoc) :
    ∀ l, SortedDesc l → SortedDesc (insertDesc x l) := by
  intro l
  induction l with
  | nil => intro _; simp [insertDesc, SortedDesc]
  | cons y ys ih =>
    intro hs
    have hs2 : SortedDesc ys := (List.pairwise_cons.mp hs).2
    have hy : ∀ z ∈ ys, docGe y z = true := (List.pairwise_cons.mp hs).1
    by_cases h : docGe x y = true
    · unfold insertDesc
      rw [if_pos h]
      refine List.pairwise_cons.mpr ⟨?_, hs⟩
      intro z hz
      rcases List.mem_cons.mp hz with rfl | hz2
      · exact h
      · exact docGe_trans x y z h (hy z hz2)
    · unfold insertDesc
      rw [if_neg h]
      refine List.pairwise_cons.mpr ⟨?_, ih hs2⟩
      intro z hz
      rcases (mem_insertDesc x z ys).mp hz with hzx | hz2
      · rcases docGe_total x y with h2 | h2
        · exact absurd h2 h
        · rw [hzx]; exact h2
      · exact hy z hz2

theorem perm_insertDesc (x : VaultDoc) :
    ∀ l, List.Perm (insertDesc x l) (x :: l) := by
  intro l
  induction l with
  | nil => simp [insertDesc]
  | cons y ys ih =>
    by_cases h : docGe x y = true
    · simp [insertDesc, h]
    · unfold insertDesc
      rw [if_neg h]
      exact List.Perm.trans (List.Perm.cons y ih) (List.Perm.swap x y ys)

theorem sortedDesc_sortDesc : ∀ l, SortedDesc (sortDesc l) := by
  intro l
  induction l with
  | nil => simp [sortDesc, SortedDesc]
  | cons x xs ih => exact sortedDesc_insertDesc x (sortDesc xs) ih

theorem perm_sortDesc : ∀ l, List.Perm (sortDesc l) l := by
  intro l
  induction l with
  | nil => rfl
  | cons x xs ih =>
    exact List.Perm.trans (perm_insertDesc x (sortDesc xs)) (List.Perm.cons x ih)

/-! ## Vault collection lemmas -/

theorem vaultLookup_set_self (k : String) (v : VaultDoc) :
    ∀ st : Store, vaultLookup (vaultSet st k v) k = some v := by
  intro st
  induction st with
  | nil => simp [vaultSet, vaultLookup]
  | cons p rest ih =>
    cases p with
    | mk k2 v2 =>
      by_cases h : k2 = k
      · simp [vaultSet, h, vaultLookup]
      · simp [vaultSet, h, vaultLookup, ih]

theorem vaultLookup_set_ne (k k2 : String) (v : VaultDoc) (hne : k2 ≠ k) :
    ∀ st : Store, vaultLookup (vaultSet st k v) k2 = vaultLookup st k2 := by
  have hne2 : k ≠ k2 := Ne.symm hne
  intro st
  induction st with
  | nil => simp [vaultSet, vaultLookup, hne2]
  | cons p rest ih =>
    cases p with
    | mk k3 v3 =>
      by_cases h : k3 = k
      · subst h
        simp [vaultSet, vaultLookup, hne2]
      · simp [vaultSet, h, vaultLookup, ih]

theorem vaultLookup_set_isSome (k k2 : String) (v : VaultDoc) (st : Store)
    (h : (vaultLookup st k2).isSome = true) :
    (vaultLookup (vaultSet st k v) k2).isSome = true := by
  by_cases he : k2 = k
  · subst he
    rw [vaultLookup_set_self]
    rfl
  · rw [vaultLookup_set_ne k k2 v he]
    exact h

theorem saveToVault_fail (env : StoreEnv) (store : Store) (h d r n : String)
    (hfail : env.configured = false ∨ env.failing = true) :
    saveToVault env store h d r n = store := by
  rcases hfail with hc | hf
  · simp [saveToVault, getDbE, hc]
  · cases hcfg : env.configured
    · simp [saveToVault, getDbE, hcfg]
    · simp [saveToVault, getDbE, setDocE, hcfg, hf]

theorem saveToVault_ok (env : StoreEnv) (store : Store) (h d r n : String)
    (hc : env.configured = true) (hf : env.failing = false) :
    saveToVault env store h d r n = vaultSet store h ⟨n, d, r, h⟩ := by
  simp [saveToVault, getDbE, setDocE, hc, hf]

theorem saveToVault_isSome (env : StoreEnv) (store : Store) (h d r n k : String)
    (hk : (vaultLookup store k).isSome = true) :
    (vaultLookup (saveToVault env store h d r n) k).isSome = true := by
  by_cases hc : env.configured = true
  · by_cases hf : env.failing = false
    · rw [saveToVault_ok env store h d r n hc hf]
      exact vaultLookup_set_isSome h k _ store hk
    · rw [saveToVault_fail env store h d r n (Or.inr (by revert hf; cases env.failing <;> simp))]
      exact hk
  · rw [saveToVault_fail env store h d r n (Or.inl (by revert hc; cases env.configured <;> simp))]
    exact hk

theorem writeBlocks_isSome (env : StoreEnv) (hashes : List String) (domain now : String) :
    ∀ bs i store k, (vaultLookup store k).isSome = true →
      (vaultLookup (writeBlocks env hashes domain now bs i store) k).isSome = true := by
  intro bs
  induction bs with
  | nil => intro i store k hk; exact hk
  | cons b bs ih =>
    intro i store k hk
    unfold writeBlocks
    apply ih
    by_cases hh : hashes.getD i "" ≠ ""
    · rw [if_pos hh]
      exact saveToVault_isSome env store _ _ _ _ k hk
    · rw [if_neg hh]
      exact hk

theorem writeBlocks_fail (env : StoreEnv) (hashes : List String) (domain now : String)
    (hfail : env.configured = false ∨ env.failing = true) :
    ∀ bs i store, writeBlocks env hashes domain now bs i store = store := by
  intro bs
  induction bs with
  | nil => intro i store; rfl
  | cons b bs ih =>
    intro i store
    unfold writeBlocks
    by_cases hh : hashes.getD i "" ≠ ""
    · rw [if_pos hh, saveToVault_fail env store _ _ _ _ hfail]
      exact ih (i + 1) store
    · rw [if_neg hh]
      exact ih (i + 1) store

theorem executeProcessing_isSome (env : StoreEnv) (apiKeySet : Bool)
    (ai : List AZ104Question → Except String ExtractionResult)
    (batch hashes : List String) (now : String) (store : Store) (k : String)
    (hk : (vaultLookup store k).isSome = true) :
    (vaultLookup (executeProcessing env apiKeySet ai batch hashes now store).2 k).isSome = true := by
  unfold executeProcessing
  split
  · exact hk
  · split
    · exact hk
    · cases hai : ai (batch.map fun rq => ⟨rq, "Verified", "Verified"⟩) with
      | error e => exact hk
      | ok ext => exact writeBlocks_isSome env hashes _ now _ 0 store k hk

theorem handleInitialScan_isSome (env : StoreEnv) (apiKeySet : Bool)
    (ai : List AZ104Question → Except String ExtractionResult)
    (inputText now : String) (store : Store) (k : String)
    (hk : (vaultLookup store k).isSome = true) :
    (vaultLookup (handleInitialScan env apiKeySet ai inputText now store).2 k).isSome = true := by
  simp only [handleInitialScan]
  split
  · exact hk
  · split
    · exact hk
    · split
      · exact hk
      · exact executeProcessing_isSome env apiKeySet ai _ _ now store k hk

theorem applyOp_isSome (env : StoreEnv) (op : AppOp) (store : Store) (k : String)
    (hk : (vaultLookup store k).isSome = true) :
    (vaultLookup (applyOp env op store) k).isSome = true := by
  cases op with
  | scanOp apiKeySet ai inputText now =>
    exact handleInitialScan_isSome env apiKeySet ai inputText now store k hk
  | processAllOp apiKeySet ai pb now =>
    exact executeProcessing_isSome env apiKeySet ai pb.questions pb.hashes now store k hk
  | skipDuplicatesOp apiKeySet ai pb now =>
    exact executeProcessing_isSome env apiKeySet ai _ _ now store k hk
  | saveOp hash domain rule now => exact saveToVault_isSome env store hash domain rule now k hk
  | fetchOp => exact hk
  | checkOp _ => exact hk

/-! ## Shape of the hash output -/

theorem sha256_length (msg : List Nat) : (sha256 msg).length = 32 := by
  simp [sha256, wordBytes]

/-- Lowercase hexadecimal digit test. -/
def isLowerHexDigit (c : Char) : Bool := "0123456789abcdef".data.contains c

theorem hexDigit_isHex : ∀ n, n < 16 → isLowerHexDigit (hexDigit n) = true := by decide

theorem hexByte_all (b : Nat) : (hexByte b).all isLowerHexDigit = true := by
  simp only [hexByte, List.all_cons, List.all_nil, Bool.and_eq_true]
  refine ⟨hexDigit_isHex _ (Nat.mod_lt _ (by omega)), hexDigit_isHex _ (Nat.mod_lt _ (by omega)), trivial⟩

theorem hexEncode_length (bytes : List Nat) :
    (hexEncode bytes).length = 2 * bytes.length := by
  show ((bytes.map hexByte).flatten).length = 2 * bytes.length
  induction bytes with
  | nil => rfl
  | cons b bs ih =>
    simp only [List.map_cons, List.flatten_cons, List.length_append, ih,
      List.length_cons, hexByte, List.length_nil]
    omega

theorem hexEncode_all (bytes : List Nat) :
    (hexEncode bytes).data.all isLowerHexDigit = true := by
  show ((bytes.map hexByte).flatten).all isLowerHexDigit = true
  induction bytes with
  | nil => rfl
  | cons b bs ih =>
    simp only [List.map_cons, List.flatten_cons, List.all_append, Bool.and_eq_true]
    exact ⟨hexByte_all b, ih⟩

theorem getQuestionHash_length (s : String) : (getQuestionHash s).length = 64 := by
  show (hexEncode (sha256 (utf8Encode (lowerL (jsTrimL s.data))))).length = 64
  rw [hexEncode_length, sha256_length]

theorem getQuestionHash_allHex (s : String) :
    (getQuestionHash s).data.all isLowerHexDigit = true :=
  hexEncode_all _

/-! ## Behavior of the fallible store operations -/

theorem checkDuplicate_ok (env : StoreEnv) (store : Store) (hash : String)
    (hc : env.configured = true) (hf : env.failing = false) :
    checkDuplicate env store hash = (vaultLookup store hash).isSome := by
  simp [checkDuplicate, getDbE, getDocE, hc, hf]

theorem checkDuplicate_fail (env : StoreEnv) (store : Store) (hash : String)
    (hfail : env.configured = false ∨ env.failing = true) :
    checkDuplicate env store hash = false := by
  rcases hfail with hc | hf
  · simp [checkDuplicate, getDbE, hc]
  · cases hcfg : env.configured
    · simp [checkDuplicate, getDbE, hcfg]
    · simp [checkDuplicate, getDbE, getDocE, hcfg, hf]

theorem fetchVault_ok (env : StoreEnv) (store : Store)
    (hc : env.configured = true) (hf : env.failing = false) :
    fetchVault env store = sortDesc (store.map (fun p => p.2)) := by
  simp [fetchVault, getDbE, getDocsE, hc, hf]

theorem fetchVault_fail (env : StoreEnv) (store : Store)
    (hfail : env.configured = false ∨ env.failing = true) :
    fetchVault env store = [] := by
  rcases hfail with hc | hf
  · simp [fetchVault, getDbE, hc]
  · cases hcfg : env.configured
    · simp [fetchVault, getDbE, hcfg]
    · simp [fetchVault, getDbE, getDocsE, hcfg, hf]

theorem trueIndices_all_false (ds : List Bool) (h : ∀ b ∈ ds, b = false) :
    ∀ i, trueIndices ds i = [] := by
  induction ds with
  | nil => intro i; rfl
  | cons d ds ih =>
    intro i
    have hd : d = false := h d (by simp)
    subst hd
    show (if false = true then i :: trueIndices ds (i + 1) else trueIndices ds (i + 1)) = []
    rw [if_neg (by simp)]
    exact ih (fun b hb => h b (by simp [hb])) (i + 1)

/-! ## Decomposition of the staged counter under a push -/

/-- A segment that opens with a character outside the pattern and continues
without the pattern head contributes nothing and blocks straddling. -/
theorem countOcc_seg (q : Char) (P x : List Char) (c : Char) (Lt y : List Char)
    (hc : ¬c ∈ q :: P) (hLt : ∀ d ∈ Lt, ¬d = q) :
    countOcc (q :: P) (x ++ c :: (Lt ++ y)) =
      countOcc (q :: P) x + countOcc (q :: P) y := by
  rw [countOcc_append_cons q P x c (Lt ++ y) hc]
  congr 1
  rw [show c :: (Lt ++ y) = (c :: Lt) ++ y from rfl]
  apply countOcc_append_of_head_notin
  intro d hd
  rcases List.mem_cons.mp hd with rfl | hd2
  · intro hdq
    exact hc (by rw [hdq]; simp)
  · exact hLt d hd2

/-- Occurrences of the multi-file pattern in one pushed block: the leading
marker plus any occurrences inside the three fields; the fixed labels and
boundaries contribute nothing. -/
theorem countOcc_fmt_out (q : ExtractedQuestion) :
    countOcc "Question: ".data (fmtQuestion q).data =
      1 + countOcc "Question: ".data q.text.data +
        countOcc "Question: ".data q.correctAnswer.data +
        countOcc "Question: ".data q.explanation.data := by
  have h1 : ("Question: " : String).data = 'Q' :: "uestion: ".data := rfl
  have h2 : ("\nCorrect Answer: " : String).data = '\n' :: "Correct Answer: ".data := rfl
  have h3 : ("\nExplanation: " : String).data = '\n' :: "Explanation: ".data := rfl
  have hdata : (fmtQuestion q).data =
      'Q' :: ("uestion: ".data ++ (q.text.data ++ '\n' :: ("Correct Answer: ".data ++
        (q.correctAnswer.data ++ '\n' :: ("Explanation: ".data ++ q.explanation.data))))) := by
    simp only [fmtQuestion, String.data_append, h1, h2, h3, List.cons_append,
      List.append_assoc]
  rw [h1, hdata, countOcc_prefix_self,
    countOcc_seg 'Q' "uestion: ".data q.text.data '\n' "Correct Answer: ".data _
      (by decide) (by decide),
    countOcc_seg 'Q' "uestion: ".data q.correctAnswer.data '\n' "Explanation: ".data _
      (by decide) (by decide)]
  omega

/-- Occurrences of the case-insensitive index.tsx pattern in one lowercased
pushed block. -/
theorem countOcc_fmt_idx (q : ExtractedQuestion) :
    countOcc "question:".data (lowerL (fmtQuestion q).data) =
      1 + countOcc "question:".data (lowerL q.text.data) +
        countOcc "question:".data (lowerL q.correctAnswer.data) +
        countOcc "question:".data (lowerL q.explanation.data) := by
  have h1 : ("Question: " : String).data = 'Q' :: "uestion: ".data := rfl
  have h2 : ("\nCorrect Answer: " : String).data = '\n' :: "Correct Answer: ".data := rfl
  have h3 : ("\nExplanation: " : String).data = '\n' :: "Explanation: ".data := rfl
  have hdata : (fmtQuestion q).data =
      'Q' :: ("uestion: ".data ++ (q.text.data ++ '\n' :: ("Correct Answer: ".data ++
        (q.correctAnswer.data ++ '\n' :: ("Explanation: ".data ++ q.explanation.data))))) := by
    simp only [fmtQuestion, String.data_append, h1, h2, h3, List.cons_append,
      List.append_assoc]
  have ha : ∀ X, lowerL ('Q' :: ("uestion: ".data ++ X)) =
      'q' :: ("uestion:".data ++ (' ' :: lowerL X)) := by
    intro X
    rw [show ('Q' :: ("uestion: ".data ++ X)) = "Question: ".data ++ X from rfl,
      lowerL_append,
      show lowerL "Question: ".data = 'q' :: ("uestion:".data ++ [' ']) from by decide,
      List.cons_append, List.append_assoc, List.singleton_append]
  have hb : ∀ X, lowerL ('\n' :: ("Correct Answer: ".data ++ X)) =
      '\n' :: ("correct answer: ".data ++ lowerL X) := by
    intro X
    rw [show ('\n' :: ("Correct Answer: ".data ++ X)) = "\nCorrect Answer: ".data ++ X from rfl,
      lowerL_append,
      show lowerL "\nCorrect Answer: ".data = '\n' :: "correct answer: ".data from by decide,
      List.cons_append]
  have hc2 : ∀ X, lowerL ('\n' :: ("Explanation: ".data ++ X)) =
      '\n' :: ("explanation: ".data ++ lowerL X) := by
    intro X
    rw [show ('\n' :: ("Explanation: ".data ++ X)) = "\nExplanation: ".data ++ X from rfl,
      lowerL_append,
      show lowerL "\nExplanation: ".data = '\n' :: "explanation: ".data from by decide,
      List.cons_append]
  have hlow : lowerL (fmtQuestion q).data =
      'q' :: ("uestion:".data ++ (' ' :: (lowerL q.text.data ++ '\n' :: ("correct answer: ".data ++
        (lowerL q.correctAnswer.data ++ '\n' :: ("explanation: ".data ++ lowerL q.explanation.data)))))) := by
    rw [hdata, ha, lowerL_append, hb, lowerL_append, hc2]
  have h4 : ("question:" : String).data = 'q' :: "uestion:".data := rfl
  rw [h4, hlow, countOcc_prefix_self]
  rw [show (' ' :: (lowerL q.text.data ++ '\n' :: ("correct answer: ".data ++
        (lowerL q.correctAnswer.data ++ '\n' :: ("explanation: ".data ++ lowerL q.explanation.data))))) =
      [' '] ++ (lowerL q.text.data ++ '\n' :: ("correct answer: ".data ++
        (lowerL q.correctAnswer.data ++ '\n' :: ("explanation: ".data ++ lowerL q.explanation.data)))) from rfl,
    countOcc_append_of_head_notin 'q' "uestion:".data [' '] _ (by decide),
    countOcc_seg 'q' "uestion:".data (lowerL q.text.data) '\n' "correct answer: ".data _
      (by decide) (by decide),
    countOcc_seg 'q' "uestion:".data (lowerL q.correctAnswer.data) '\n' "explanation: ".data _
      (by decide) (by decide)]
  omega

/-- Scanning past a head character different from the pattern head. -/
theorem countOcc_cons_of_ne (q : Char) (P : List Char) (c : Char) (rest : List Char)
    (h : ¬c = q) : countOcc (q :: P) (c :: rest) = countOcc (q :: P) rest := by
  apply countOcc_cons_neg
  intro hand
  have h2 := hand.2
  simp only [List.isPrefixOf, Bool.and_eq_true, beq_iff_eq] at h2
  exact h h2.1.symm

/-- Effect of a successful multi-file push on the staged counter. -/
theorem stagedCount_push_out (q : ExtractedQuestion) (s : String)
    (h : stagedCount s < 6) :
    stagedCount (handlePushToEngineOut q s) =
      stagedCount s + 1 + countOcc "Question: ".data q.text.data +
        countOcc "Question: ".data q.correctAnswer.data +
        countOcc "Question: ".data q.explanation.data := by
  have h1 : ("Question: " : String).data = 'Q' :: "uestion: ".data := rfl
  have hf := countOcc_fmt_out q
  unfold handlePushToEngineOut
  rw [if_neg (by omega)]
  by_cases hs : s ≠ ""
  · rw [if_pos hs]
    show countOcc "Question: ".data (s ++ "\n\n" ++ fmtQuestion q).data = _
    rw [show (s ++ "\n\n" ++ fmtQuestion q).data =
        s.data ++ '\n' :: ('\n' :: (fmtQuestion q).data) from by
      rw [String.data_append, String.data_append, List.append_assoc]
      rfl]
    rw [h1] at hf ⊢
    rw [countOcc_append_cons 'Q' "uestion: ".data s.data '\n' _ (by decide),
      countOcc_cons_of_ne 'Q' "uestion: ".data '\n' _ (by decide),
      countOcc_cons_of_ne 'Q' "uestion: ".data '\n' _ (by decide), hf]
    show _ = countOcc ('Q' :: "uestion: ".data) s.data + 1 + _ + _ + _
    omega
  · rw [if_neg hs]
    have hs2 : s = "" := by
      by_contra hcon
      exact hs hcon
    subst hs2
    show countOcc "Question: ".data (fmtQuestion q).data = _
    rw [hf]
    show _ = countOcc "Question: ".data ("" : String).data + 1 + _ + _ + _
    rw [show ("" : String).data = [] from rfl, countOcc_nil]

/-- Effect of a successful index.tsx push on the staged counter. -/
theorem currentStagedCount_push_idx (q : ExtractedQuestion) (s : String)
    (h : currentStagedCount s < 6) :
    currentStagedCount (handlePushToEngineIdx q s) =
      currentStagedCount s + 1 + countOcc "question:".data (lowerL q.text.data) +
        countOcc "question:".data (lowerL q.correctAnswer.data) +
        countOcc "question:".data (lowerL q.explanation.data) := by
  have h4 : ("question:" : String).data = 'q' :: "uestion:".data := rfl
  have hf := countOcc_fmt_idx q
  have htrim : countOcc "question:".data (lowerL (jsTrimL s.data)) =
      countOcc "question:".data (lowerL s.data) := by
    rw [lowerL_jsTrimL, h4]
    exact countOcc_jsTrimL 'q' "uestion:".data (by decide) (by decide) (lowerL s.data)
  unfold handlePushToEngineIdx
  rw [if_neg (by omega)]
  by_cases hs : jsTrimS s ≠ ""
  · rw [if_pos hs]
    show countOcc "question:".data (lowerL (jsTrimS s ++ "\n\n" ++ fmtQuestion q).data) = _
    rw [show (jsTrimS s ++ "\n\n" ++ fmtQuestion q).data =
        jsTrimL s.data ++ '\n' :: ('\n' :: (fmtQuestion q).data) from by
      rw [String.data_append, String.data_append, List.append_assoc]
      rfl]
    rw [lowerL_append, lowerL_cons, lowerL_cons,
      show asciiLower '\n' = '\n' from by decide]
    rw [h4] at hf htrim ⊢
    rw [countOcc_append_cons 'q' "uestion:".data _ '\n' _ (by decide),
      countOcc_cons_of_ne 'q' "uestion:".data '\n' _ (by decide),
      countOcc_cons_of_ne 'q' "uestion:".data '\n' _ (by decide), hf, htrim]
    show countOcc ('q' :: "uestion:".data) (lowerL s.data) + (1 + _ + _ + _) =
      countOcc ('q' :: "uestion:".data) (lowerL s.data) + 1 + _ + _ + _
    omega
  · rw [if_neg hs]
    have hs2 : jsTrimL s.data = [] := by
      have : jsTrimS s = "" := by
        by_contra hcon
        exact hs hcon
      exact congrArg String.data this
    show countOcc "question:".data (lowerL (fmtQuestion q).data) = _
    rw [hf]
    have hzero : currentStagedCount s = 0 := by
      show countOcc "question:".data (lowerL s.data) = 0
      rw [← htrim, hs2]
      rfl
    rw [hzero]

/-- Characterization of the scan: with nonblank input and a nonempty batch,
the scan either holds the pending batch (when some hash checks as a
duplicate) or processes at once (when none does). Shared backbone of the
duplicate-gate claims. -/
theorem handleInitialScan_cases (env : StoreEnv) (apiKeySet : Bool)
    (ai : List AZ104Question → Except String ExtractionResult)
    (inputText now : String) (store : Store)
    (hnb : jsTrimS inputText ≠ "") (hq : extractBatchOut inputText ≠ []) :
    (trueIndices (((extractBatchOut inputText).map getQuestionHash).map
        (checkDuplicate env store)) 0 ≠ [] →
      handleInitialScan env apiKeySet ai inputText now store =
        (.pendingResult (extractBatchOut inputText)
          ((extractBatchOut inputText).map getQuestionHash)
          (trueIndices (((extractBatchOut inputText).map getQuestionHash).map
            (checkDuplicate env store)) 0), store)) ∧
    (trueIndices (((extractBatchOut inputText).map getQuestionHash).map
        (checkDuplicate env store)) 0 = [] →
      handleInitialScan env apiKeySet ai inputText now store =
        executeProcessing env apiKeySet ai (extractBatchOut inputText)
          ((extractBatchOut inputText).map getQuestionHash) now store) := by
  constructor
  · intro hd
    simp only [handleInitialScan]
    rw [if_neg hnb, if_neg hq, if_pos hd]
  · intro hd
    simp only [handleInitialScan]
    rw [if_neg hnb, if_neg hq, if_neg (not_not_intro hd)]

set_option maxRecDepth 80000

/-! ## Claims -/

/-- C1, amended. The multi-file handlePushToEngine behaves exactly as the
claim states: with six or more staged items the staging text is unchanged,
otherwise the formatted question (Question, Correct Answer, Explanation
lines) is appended, separated from nonempty prior content by one blank
line and changing nothing else. The index.tsx handlePushToEngine refuses at
six (counting Question-colon case-insensitively) but first trims the prior
content of surrounding whitespace before appending. -/
theorem C1_push_cap_amended (q : ExtractedQuestion) (s : String) :
    handlePushToEngineOut q s =
      (if 6 ≤ stagedCount s then s
       else s ++ (if s = "" then "" else "\n\n") ++ fmtQuestion q) ∧
    handlePushToEngineIdx q s =
      (if 6 ≤ currentStagedCount s then s
       else jsTrimS s ++ (if jsTrimS s = "" then "" else "\n\n") ++ fmtQuestion q) := by
  constructor
  · unfold handlePushToEngineOut
    by_cases h6 : 6 ≤ stagedCount s
    · rw [if_pos h6, if_pos h6]
    · rw [if_neg h6, if_neg h6]
      by_cases hs : s = ""
      · subst hs
        rw [if_neg (by simp), if_pos rfl]
        apply String.ext
        simp [String.data_append]
      · rw [if_pos hs, if_neg hs]
  · unfold handlePushToEngineIdx
    by_cases h6 : 6 ≤ currentStagedCount s
    · rw [if_pos h6, if_pos h6]
    · rw [if_neg h6, if_neg h6]
      by_cases hs : jsTrimS s = ""
      · rw [if_neg (by simp [hs]), if_pos hs, hs]
        apply String.ext
        simp [String.data_append]
      · rw [if_pos hs, if_neg hs]

/-- C1, counterexample to the claim as stated: at the staging text
Question-colon-space-a-space (one staged item, so below the cap) the
index.tsx handlePushToEngine does not return the prior text followed by a
blank line and the formatted question; it first trims the trailing space of
the prior content. -/
theorem C1_cex :
    stagedCount "Question: a " = 1 ∧
    currentStagedCount "Question: a " = 1 ∧
    handlePushToEngineIdx ⟨"1", "t", "c", "e"⟩ "Question: a " ≠
      "Question: a " ++ "\n\n" ++ fmtQuestion ⟨"1", "t", "c", "e"⟩ := by decide

/-- C2. getQuestionHash is the lowercase hexadecimal encoding (64 hex
digits) of the SHA-256 digest of the input after trimming surrounding
whitespace and lowercasing: the output always has 64 lowercase hex digits;
inputs differing only in letter case, or only by added surrounding
whitespace, or more generally with equal normalizations, hash equally; and
on the empty string and on abc the output is the standard SHA-256 test
vector. -/
theorem C2_hash_normalized (s t : String) :
    (getQuestionHash s).length = 64 ∧
    (getQuestionHash s).data.all isLowerHexDigit = true ∧
    (lowerL s.data = lowerL t.data → getQuestionHash s = getQuestionHash t) ∧
    (∀ w1 w2 : List Char, (∀ c ∈ w1, isJsWs c = true) → (∀ c ∈ w2, isJsWs c = true) →
      getQuestionHash (String.mk (w1 ++ s.data ++ w2)) = getQuestionHash s) ∧
    (lowerL (jsTrimL s.data) = lowerL (jsTrimL t.data) →
      getQuestionHash s = getQuestionHash t) ∧
    getQuestionHash "" =
      "e3b0c44298fc1c149afbf4c8996fb92427ae41e4649b934ca495991b7852b855" ∧
    getQuestionHash "abc" =
      "ba7816bf8f01cfea414140de5dae2223b00361a396177a9cb410ff61f20015ad" := by
  refine ⟨getQuestionHash_length s, getQuestionHash_allHex s, ?_, ?_, ?_, by decide, by decide⟩
  · intro hcase
    show hexEncode (sha256 (utf8Encode (lowerL (jsTrimL s.data)))) = _
    rw [lowerL_jsTrimL, hcase, ← lowerL_jsTrimL]
    rfl
  · intro w1 w2 hw1 hw2
    show hexEncode (sha256 (utf8Encode (lowerL (jsTrimL (String.mk (w1 ++ s.data ++ w2)).data)))) = _
    rw [show (String.mk (w1 ++ s.data ++ w2)).data = w1 ++ s.data ++ w2 from rfl,
      jsTrimL_ws_wrap w1 s.data w2 hw1 hw2]
    rfl
  · intro hnorm
    show hexEncode (sha256 (utf8Encode (lowerL (jsTrimL s.data)))) = _
    rw [hnorm]
    rfl

/-- C2 witness: concrete case-only, whitespace-only, and normalized-equal
inputs hash identically. -/
theorem C2_witness :
    getQuestionHash "AbC" = getQuestionHash "abc" ∧
    getQuestionHash (String.mk ([' '] ++ "abc".data ++ ['\n'])) = getQuestionHash "abc" ∧
    getQuestionHash " ABC  " = getQuestionHash "abc" :=
  ⟨(C2_hash_normalized "AbC" "abc").2.2.1 (by decide),
   (C2_hash_normalized "abc" "abc").2.2.2.1 [' '] ['\n'] (by decide) (by decide),
   (C2_hash_normalized " ABC  " "abc").2.2.2.2.1 (by decide)⟩

/-- C5, amended. In both variants the batch is the first six chunks of the
blank-line split of the trimmed staging text that carry the question
marker, so it never exceeds six questions; the multi-file variant keeps
chunks containing Question-colon case-sensitively, while the index.tsx
variant keeps chunks containing it case-insensitively. -/
theorem C5_batch_cap_amended (s : String) :
    (extractBatchOut s).length ≤ 6 ∧
    (extractBatchOut s).all (fun c => containsL "Question:".data c.data) = true ∧
    (extractBatchIdx s).length ≤ 6 ∧
    (extractBatchIdx s).all (fun c => containsL "question:".data (lowerL c.data)) = true := by
  refine ⟨?_, ?_, ?_, ?_⟩
  · show ((((splitBlank (jsTrimL s.data)).filter _).take 6).map String.mk).length ≤ 6
    rw [List.length_map, List.length_take]
    omega
  · apply List.all_eq_true.mpr
    intro x hx
    obtain ⟨c, hc, rfl⟩ := List.mem_map.mp hx
    have hcf := List.take_subset 6 _ hc
    have := (List.mem_filter.mp hcf).2
    simpa using this
  · show ((((splitBlank (jsTrimL s.data)).filter _).take 6).map String.mk).length ≤ 6
    rw [List.length_map, List.length_take]
    omega
  · apply List.all_eq_true.mpr
    intro x hx
    obtain ⟨c, hc, rfl⟩ := List.mem_map.mp hx
    have hcf := List.take_subset 6 _ hc
    have := (List.mem_filter.mp hcf).2
    simpa using this

/-- C5, counterexample to the claim as stated: the index.tsx batching keeps
a chunk that does not contain the marker Question-colon (it only contains
its lowercase form), so the kept chunks are not exactly those containing
the marker. -/
theorem C5_cex :
    extractBatchIdx "question: a" = ["question: a"] ∧
    containsL "Question:".data "question: a".data = false := by decide

/-- C3. On every scan with nonblank input and a nonempty batch, every
question of the batch is hashed and every hash is checked against the
vault; if any check reports an existing document, the scan ends in the
pending state carrying the batch, its hashes and the duplicate indices,
with the vault untouched and the AI oracle never consulted (the result is
the same for every oracle); if no check reports a duplicate, processing
proceeds at once. -/
theorem C3_scan_duplicate_gate (env : StoreEnv) (apiKeySet : Bool)
    (ai : List AZ104Question → Except String ExtractionResult)
    (inputText now : String) (store : Store)
    (hnb : jsTrimS inputText ≠ "") (hq : extractBatchOut inputText ≠ []) :
    (trueIndices (((extractBatchOut inputText).map getQuestionHash).map
        (checkDuplicate env store)) 0 ≠ [] →
      handleInitialScan env apiKeySet ai inputText now store =
        (.pendingResult (extractBatchOut inputText)
          ((extractBatchOut inputText).map getQuestionHash)
          (trueIndices (((extractBatchOut inputText).map getQuestionHash).map
            (checkDuplicate env store)) 0), store)) ∧
    (trueIndices (((extractBatchOut inputText).map getQuestionHash).map
        (checkDuplicate env store)) 0 = [] →
      handleInitialScan env apiKeySet ai inputText now store =
        executeProcessing env apiKeySet ai (extractBatchOut inputText)
          ((extractBatchOut inputText).map getQuestionHash) now store) :=
  handleInitialScan_cases env apiKeySet ai inputText now store hnb hq

/-- C3 witness: a staging text whose single question already sits in the
vault is held as a pending batch with duplicate index 0 and the vault is
unchanged. -/
theorem C3_witness :
    handleInitialScan ⟨true, false⟩ true
      (fun _ => .ok ⟨"D1", [⟨"R1", "w", "a", "f", "c", "u", "m"⟩], []⟩)
      "Question: x" "T1"
      [(getQuestionHash "Question: x",
        ⟨"T0", "D0", "R0", getQuestionHash "Question: x"⟩)] =
    (.pendingResult ["Question: x"] [getQuestionHash "Question: x"] [0],
     [(getQuestionHash "Question: x",
       ⟨"T0", "D0", "R0", getQuestionHash "Question: x"⟩)]) :=
  (C3_scan_duplicate_gate ⟨true, false⟩ true
    (fun _ => .ok ⟨"D1", [⟨"R1", "w", "a", "f", "c", "u", "m"⟩], []⟩)
    "Question: x" "T1"
    [(getQuestionHash "Question: x",
      ⟨"T0", "D0", "R0", getQuestionHash "Question: x"⟩)]
    (by decide) (by decide)).1 (by decide)

/-- C9. checkDuplicate is best-effort: with a configured, reachable store
it returns exactly the existence of the document keyed by the hash; on
every failure (unconfigured store or failing read) it returns false
instead of propagating; consequently with a failing store a scan never
raises the duplicate prompt and proceeds straight to processing even when
the question already sits in the vault. -/
theorem C9_checkduplicate_besteffort (env : StoreEnv) (store : Store) (h : String) :
    (env.configured = true → env.failing = false →
      checkDuplicate env store h = (vaultLookup store h).isSome) ∧
    (env.configured = false ∨ env.failing = true → checkDuplicate env store h = false) ∧
    (∀ apiKeySet ai inputText now, env.failing = true →
      jsTrimS inputText ≠ "" → extractBatchOut inputText ≠ [] →
      handleInitialScan env apiKeySet ai inputText now store =
        executeProcessing env apiKeySet ai (extractBatchOut inputText)
          ((extractBatchOut inputText).map getQuestionHash) now store) := by
  refine ⟨checkDuplicate_ok env store h, checkDuplicate_fail env store h, ?_⟩
  intro apiKeySet ai inputText now hfail hnb hq
  have hall : ∀ b ∈ ((extractBatchOut inputText).map getQuestionHash).map
      (checkDuplicate env store), b = false := by
    intro b hb
    obtain ⟨hsh, _, rfl⟩ := List.mem_map.mp hb
    exact checkDuplicate_fail env store hsh (Or.inr hfail)
  exact (handleInitialScan_cases env apiKeySet ai inputText now store hnb hq).2
    (trueIndices_all_false _ hall 0)

/-- C9 witness: with a failing store, a question whose hash is present in
the vault is checked as not-duplicate and the scan processes it without
the duplicate prompt, writing nothing (the write also fails). -/
theorem C9_witness :
    checkDuplicate ⟨true, true⟩
      [(getQuestionHash "Question: x",
        ⟨"T0", "D0", "R0", getQuestionHash "Question: x"⟩)]
      (getQuestionHash "Question: x") = false ∧
    handleInitialScan ⟨true, true⟩ true
      (fun _ => .ok ⟨"D1", [⟨"R1", "w", "a", "f", "c", "u", "m"⟩], []⟩)
      "Question: x" "T1"
      [(getQuestionHash "Question: x",
        ⟨"T0", "D0", "R0", getQuestionHash "Question: x"⟩)] =
    executeProcessing ⟨true, true⟩ true
      (fun _ => .ok ⟨"D1", [⟨"R1", "w", "a", "f", "c", "u", "m"⟩], []⟩)
      ["Question: x"] [getQuestionHash "Question: x"] "T1"
      [(getQuestionHash "Question: x",
        ⟨"T0", "D0", "R0", getQuestionHash "Question: x"⟩)] :=
  ⟨(C9_checkduplicate_besteffort ⟨true, true⟩
      [(getQuestionHash "Question: x",
        ⟨"T0", "D0", "R0", getQuestionHash "Question: x"⟩)]
      (getQuestionHash "Question: x")).2.1 (Or.inr rfl),
   (C9_checkduplicate_besteffort ⟨true, true⟩
      [(getQuestionHash "Question: x",
        ⟨"T0", "D0", "R0", getQuestionHash "Question: x"⟩)]
      (getQuestionHash "Question: x")).2.2 true
      (fun _ => .ok ⟨"D1", [⟨"R1", "w", "a", "f", "c", "u", "m"⟩], []⟩)
      "Question: x" "T1" rfl (by decide) (by decide)⟩

/-- C4, amended. Vault writes are keyed by the content hash and the app
never deletes a vault document (every key present survives every modeled
operation); but a write is insert-or-replace: writing a hash that is
already present replaces the stored document with the fresh
masteredAt-domain-foundationalRule-hash values, while documents at other
keys are untouched. -/
theorem C4_vault_write_amended (env : StoreEnv) (store : Store) :
    (∀ op k, (vaultLookup store k).isSome = true →
      (vaultLookup (applyOp env op store) k).isSome = true) ∧
    (∀ h d r n, env.configured = true → env.failing = false →
      vaultLookup (saveToVault env store h d r n) h = some ⟨n, d, r, h⟩) ∧
    (∀ h d r n k, k ≠ h →
      vaultLookup (saveToVault env store h d r n) k = vaultLookup store k) := by
  refine ⟨fun op k => applyOp_isSome env op store k, ?_, ?_⟩
  · intro h d r n hc hf
    rw [saveToVault_ok env store h d r n hc hf]
    exact vaultLookup_set_self h _ store
  · intro h d r n k hk
    by_cases hc : env.configured = true
    · by_cases hf : env.failing = false
      · rw [saveToVault_ok env store h d r n hc hf]
        exact vaultLookup_set_ne h k _ hk store
      · rw [saveToVault_fail env store h d r n
          (Or.inr (by revert hf; cases env.failing <;> simp))]
    · rw [saveToVault_fail env store h d r n
        (Or.inl (by revert hc; cases env.configured <;> simp))]

/-- C4 witness: a fresh write lands under its hash key, an unrelated key is
untouched, and a key survives a save operation. -/
theorem C4_witness :
    vaultLookup (saveToVault ⟨true, false⟩ [("k2", ⟨"T0", "D0", "R0", "k2"⟩)]
      "k1" "D1" "R1" "T1") "k1" = some ⟨"T1", "D1", "R1", "k1"⟩ ∧
    vaultLookup (saveToVault ⟨true, false⟩ [("k2", ⟨"T0", "D0", "R0", "k2"⟩)]
      "k1" "D1" "R1" "T1") "k2" = some ⟨"T0", "D0", "R0", "k2"⟩ ∧
    (vaultLookup (applyOp ⟨true, false⟩ (.saveOp "k1" "D1" "R1" "T1")
      [("k2", ⟨"T0", "D0", "R0", "k2"⟩)]) "k2").isSome = true :=
  ⟨(C4_vault_write_amended ⟨true, false⟩ [("k2", ⟨"T0", "D0", "R0", "k2"⟩)]).2.1
      "k1" "D1" "R1" "T1" rfl rfl,
   (C4_vault_write_amended ⟨true, false⟩ [("k2", ⟨"T0", "D0", "R0", "k2"⟩)]).2.2
      "k1" "D1" "R1" "T1" "k2" (by decide),
   (C4_vault_write_amended ⟨true, false⟩ [("k2", ⟨"T0", "D0", "R0", "k2"⟩)]).1
      (.saveOp "k1" "D1" "R1" "T1") "k2" (by decide)⟩

/-- C4, counterexample to the claim as stated: a question whose hash is
already stored is detected as a duplicate and held pending, but the
Process All Anyway path then replaces the stored document for that hash
with a fresh timestamp, domain and rule. -/
theorem C4_cex :
    vaultLookup
      [(getQuestionHash "Question: x",
        (⟨"T0", "D0", "R0", getQuestionHash "Question: x"⟩ : VaultDoc))]
      (getQuestionHash "Question: x") =
      some ⟨"T0", "D0", "R0", getQuestionHash "Question: x"⟩ ∧
    handleInitialScan ⟨true, false⟩ true
      (fun _ => .ok ⟨"D1", [⟨"R1", "w", "a", "f", "c", "u", "m"⟩], []⟩)
      "Question: x" "T1"
      [(getQuestionHash "Question: x",
        ⟨"T0", "D0", "R0", getQuestionHash "Question: x"⟩)] =
    (.pendingResult ["Question: x"] [getQuestionHash "Question: x"] [0],
     [(getQuestionHash "Question: x",
       ⟨"T0", "D0", "R0", getQuestionHash "Question: x"⟩)]) ∧
    vaultLookup
      (onProcessAll ⟨true, false⟩ true
        (fun _ => .ok ⟨"D1", [⟨"R1", "w", "a", "f", "c", "u", "m"⟩], []⟩)
        ⟨["Question: x"], [getQuestionHash "Question: x"], [0]⟩ "T1"
        [(getQuestionHash "Question: x",
          ⟨"T0", "D0", "R0", getQuestionHash "Question: x"⟩)]).2
      (getQuestionHash "Question: x") =
      some ⟨"T1", "D1", "R1", getQuestionHash "Question: x"⟩ ∧
    (⟨"T1", "D1", "R1", getQuestionHash "Question: x"⟩ : VaultDoc) ≠
      ⟨"T0", "D0", "R0", getQuestionHash "Question: x"⟩ := by decide

/-- C6. Persistence failures are swallowed with no retry or compensation:
on an unconfigured or failing store, saveToVault returns the store
unchanged (it is a total function, so no exception propagates, and the
single attempt is the only one), fetchVault returns the empty list, and a
processing run whose AI call succeeds still ends in the success state
showing the extraction even though every vault write failed and the store
is unchanged. -/
theorem C6_persistence_besteffort (env : StoreEnv) (store : Store)
    (h d r n : String) (batch hashes : List String) (ext : ExtractionResult)
    (now : String) :
    (env.configured = false ∨ env.failing = true →
      saveToVault env store h d r n = store) ∧
    (env.configured = false ∨ env.failing = true → fetchVault env store = []) ∧
    (env.failing = true → batch ≠ [] →
      executeProcessing env true (fun _ => .ok ext) batch hashes now store =
        (.successResult ext, store)) := by
  refine ⟨saveToVault_fail env store h d r n, fetchVault_fail env store, ?_⟩
  intro hfail hbatch
  unfold executeProcessing
  rw [if_neg hbatch, if_neg (by simp)]
  show (ScanResult.successResult ext,
    writeBlocks env hashes ext.domain now ext.blocks 0 store) = _
  rw [writeBlocks_fail env hashes ext.domain now (Or.inr hfail) ext.blocks 0 store]

/-- C6 witness: with a configured but failing store, a save leaves the
vault unchanged, a fetch returns the empty list, and processing one
question still succeeds with the extraction while writing nothing. -/
theorem C6_witness :
    saveToVault ⟨true, true⟩ [("k2", ⟨"T0", "D0", "R0", "k2"⟩)] "k1" "D" "R" "T" =
      [("k2", ⟨"T0", "D0", "R0", "k2"⟩)] ∧
    fetchVault ⟨true, true⟩ [("k2", ⟨"T0", "D0", "R0", "k2"⟩)] = [] ∧
    executeProcessing ⟨true, true⟩ true
      (fun _ => .ok ⟨"D1", [⟨"R1", "w", "a", "f", "c", "u", "m"⟩], []⟩)
      ["Question: x"] ["h1"] "T1" [("k2", ⟨"T0", "D0", "R0", "k2"⟩)] =
    (.successResult ⟨"D1", [⟨"R1", "w", "a", "f", "c", "u", "m"⟩], []⟩,
      [("k2", ⟨"T0", "D0", "R0", "k2"⟩)]) :=
  ⟨(C6_persistence_besteffort ⟨true, true⟩ [("k2", ⟨"T0", "D0", "R0", "k2"⟩)]
      "k1" "D" "R" "T" ["Question: x"] ["h1"]
      ⟨"D1", [⟨"R1", "w", "a", "f", "c", "u", "m"⟩], []⟩ "T1").1 (Or.inr rfl),
   (C6_persistence_besteffort ⟨true, true⟩ [("k2", ⟨"T0", "D0", "R0", "k2"⟩)]
      "k1" "D" "R" "T" ["Question: x"] ["h1"]
      ⟨"D1", [⟨"R1", "w", "a", "f", "c", "u", "m"⟩], []⟩ "T1").2.1 (Or.inr rfl),
   (C6_persistence_besteffort ⟨true, true⟩ [("k2", ⟨"T0", "D0", "R0", "k2"⟩)]
      "k1" "D" "R" "T" ["Question: x"] ["h1"]
      ⟨"D1", [⟨"R1", "w", "a", "f", "c", "u", "m"⟩], []⟩ "T1").2.2 rfl (by decide)⟩

/-- C7. With no API key configured (neither the local storage slot nor the
environment variable), both cleanAndExtractAnswers and processInsights
throw the settings error without depending on any network response; and
with a key configured, an AI response whose text does not parse as JSON
after the code fences are stripped and the text trimmed makes
processInsights throw the smaller-batch error. -/
theorem C7_gemini_errors (lk ek t : String)
    (parseQ : String → Option (List ExtractedQuestion))
    (parseR : String → Option ExtractionResult) (srcs : List GroundingSource) :
    (∀ net, cleanAndExtractAnswers "" "" net parseQ =
      .error "No API key configured. Please add your Gemini API key in Settings.") ∧
    (∀ net, processInsights "" "" net parseR srcs =
      .error "No API key configured. Please add your Gemini API key in Settings.") ∧
    (getApiKey lk ek ≠ "" →
      parseR (jsTrimS (stripFences (if t = "" then "{}" else t))) = none →
      processInsights lk ek (.ok t) parseR srcs =
        .error "Invalid structure returned from AI. Try a smaller batch.") := by
  refine ⟨?_, ?_, ?_⟩
  · intro net
    simp [cleanAndExtractAnswers, getApiKey]
  · intro net
    simp [processInsights, getApiKey]
  · intro hkey hparse
    unfold processInsights
    rw [if_neg (by simpa using hkey)]
    show (match parseR (jsTrimS (stripFences (if t = "" then "{}" else t))) with
      | some r => Except.ok { r with sources := srcs }
      | none =>
        Except.error "Invalid structure returned from AI. Try a smaller batch.") = _
    rw [hparse]

/-- C7 witness: with no key both calls fail with the settings error for a
concrete response, and with a key a fenced non-JSON response fails with
the smaller-batch error. -/
theorem C7_witness :
    cleanAndExtractAnswers "" "" (.ok "[1]") (fun _ => none) =
      .error "No API key configured. Please add your Gemini API key in Settings." ∧
    processInsights "" "" (.ok "x") (fun _ => none) [] =
      .error "No API key configured. Please add your Gemini API key in Settings." ∧
    processInsights "k" "" (.ok "```json\nnot json\n```") (fun _ => none) [] =
      .error "Invalid structure returned from AI. Try a smaller batch." :=
  ⟨(C7_gemini_errors "k" "" "```json\nnot json\n```" (fun _ => none)
      (fun _ => none) []).1 (.ok "[1]"),
   (C7_gemini_errors "k" "" "```json\nnot json\n```" (fun _ => none)
      (fun _ => none) []).2.1 (.ok "x"),
   (C7_gemini_errors "k" "" "```json\nnot json\n```" (fun _ => none)
      (fun _ => none) []).2.2 (by decide) rfl⟩

/-- C8, amended. The vault read path is the full-collection query ordered
by masteredAt descending (the fetched list is a permutation of the stored
documents, pairwise descending), and a fetched item passes the client-side
filter exactly when its rule or domain contains the search string
case-insensitively and each selected date bound holds, except that a bound
whose computed millisecond value is exactly 0 (the epoch) is dropped by
the truthiness guard; an empty filter imposes no constraint. -/
theorem C8_vault_read_amended (env : StoreEnv) (store : Store) (ds : DateSem)
    (search startDate endDate : String) (items : List VaultDoc) (x : VaultDoc) :
    (env.configured = true → env.failing = false →
      List.Perm (fetchVault env store) (store.map (fun p => p.2)) ∧
      List.Pairwise (fun a b => docGe a b = true) (fetchVault env store)) ∧
    (x ∈ filteredItems ds search startDate endDate items ↔
      x ∈ items ∧
      (containsL (lowerL search.data) (lowerL x.foundationalRule.data) = true ∨
        containsL (lowerL search.data) (lowerL x.domain.data) = true) ∧
      (startDate = "" ∨ ds.startOfDay startDate = 0 ∨
        ds.startOfDay startDate ≤ ds.toTime x.masteredAt) ∧
      (endDate = "" ∨ ds.endOfDay endDate = 0 ∨
        ds.toTime x.masteredAt ≤ ds.endOfDay endDate)) := by
  constructor
  · intro hc hf
    rw [fetchVault_ok env store hc hf]
    exact ⟨perm_sortDesc _, sortedDesc_sortDesc _⟩
  · unfold filteredItems
    rw [List.mem_filter]
    constructor
    · rintro ⟨hx, hp⟩
      refine ⟨hx, ?_⟩
      simp only [Bool.and_eq_true, Bool.or_eq_true] at hp
      obtain ⟨⟨hsearch, hstart⟩, hend⟩ := hp
      refine ⟨hsearch, ?_, ?_⟩
      · by_cases h1 : startDate = ""
        · exact Or.inl h1
        · rw [if_neg h1] at hstart
          by_cases h3 : ds.startOfDay startDate = 0
          · exact Or.inr (Or.inl h3)
          · rw [if_neg h3] at hstart
            exact Or.inr (Or.inr (by simpa using hstart))
      · by_cases h2 : endDate = ""
        · exact Or.inl h2
        · rw [if_neg h2] at hend
          by_cases h4 : ds.endOfDay endDate = 0
          · exact Or.inr (Or.inl h4)
          · rw [if_neg h4] at hend
            exact Or.inr (Or.inr (by simpa using hend))
    · rintro ⟨hx, hsearch, hstart, hend⟩
      refine ⟨hx, ?_⟩
      simp only [Bool.and_eq_true, Bool.or_eq_true]
      refine ⟨⟨hsearch, ?_⟩, ?_⟩
      · rcases hstart with h1 | h3 | hle
        · rw [if_pos h1]
        · by_cases h1 : startDate = ""
          · rw [if_pos h1]
          · rw [if_neg h1, if_pos h3]
        · by_cases h1 : startDate = ""
          · rw [if_pos h1]
          · rw [if_neg h1]
            by_cases h3 : ds.startOfDay startDate = 0
            · rw [if_pos h3]
            · rw [if_neg h3]
              simpa using hle
      · rcases hend with h2 | h4 | hle
        · rw [if_pos h2]
        · by_cases h2 : endDate = ""
          · rw [if_pos h2]
          · rw [if_neg h2, if_pos h4]
        · by_cases h2 : endDate = ""
          · rw [if_pos h2]
          · rw [if_neg h2]
            by_cases h4 : ds.endOfDay endDate = 0
            · rw [if_pos h4]
            · rw [if_neg h4]
              simpa using hle

/-- C8 witness: a two-document store fetches sorted descending by
masteredAt; an item matching a search word and inside the date range is
displayed, as the filter characterization instantiates. -/
theorem C8_witness :
    fetchVault ⟨true, false⟩
      [("h1", ⟨"2024-01-01T00:00:00.000Z", "Net", "RuleA", "h1"⟩),
       ("h2", ⟨"2024-02-01T00:00:00.000Z", "Store", "RuleB", "h2"⟩)] =
      [⟨"2024-02-01T00:00:00.000Z", "Store", "RuleB", "h2"⟩,
       ⟨"2024-01-01T00:00:00.000Z", "Net", "RuleA", "h1"⟩] ∧
    List.Pairwise (fun a b => docGe a b = true)
      (fetchVault ⟨true, false⟩
        [("h1", ⟨"2024-01-01T00:00:00.000Z", "Net", "RuleA", "h1"⟩),
         ("h2", ⟨"2024-02-01T00:00:00.000Z", "Store", "RuleB", "h2"⟩)]) ∧
    (⟨"2024-01-01T00:00:00.000Z", "Net", "RuleA", "h1"⟩ : VaultDoc) ∈
      filteredItems ⟨fun _ => 5, fun _ => 3, fun _ => 9⟩ "net" "2023-12-30" "2024-01-02"
        [⟨"2024-01-01T00:00:00.000Z", "Net", "RuleA", "h1"⟩] := by
  refine ⟨by decide, ?_, ?_⟩
  · exact ((C8_vault_read_amended ⟨true, false⟩
      [("h1", ⟨"2024-01-01T00:00:00.000Z", "Net", "RuleA", "h1"⟩),
       ("h2", ⟨"2024-02-01T00:00:00.000Z", "Store", "RuleB", "h2"⟩)]
      ⟨fun _ => 5, fun _ => 3, fun _ => 9⟩ "net" "2023-12-30" "2024-01-02" []
      ⟨"", "", "", ""⟩).1 rfl rfl).2
  · exact ((C8_vault_read_amended ⟨true, false⟩ []
      ⟨fun _ => 5, fun _ => 3, fun _ => 9⟩ "net" "2023-12-30" "2024-01-02"
      [⟨"2024-01-01T00:00:00.000Z", "Net", "RuleA", "h1"⟩]
      ⟨"2024-01-01T00:00:00.000Z", "Net", "RuleA", "h1"⟩).2).mpr
      ⟨by decide, by decide, by decide, by decide⟩

/-- C8, counterexample to the claim as stated: under the date semantics of
a UTC environment (where the local start of the day 1970-01-01 is the
epoch millisecond 0), an item whose masteredAt time lies strictly before
the start of the selected from-date is nevertheless displayed, because the
computed bound 0 is falsy and the from-constraint is silently dropped. -/
theorem C8_cex :
    (⟨"1969-12-01T00:00:00.000Z", "Net", "Rule", "h"⟩ : VaultDoc) ∈
      filteredItems ⟨fun _ => -100, fun _ => 0, fun _ => 0⟩ "" "1970-01-01" ""
        [⟨"1969-12-01T00:00:00.000Z", "Net", "Rule", "h"⟩] ∧
    (DateSem.toTime ⟨fun _ => -100, fun _ => 0, fun _ => 0⟩ "1969-12-01T00:00:00.000Z" <
      DateSem.startOfDay ⟨fun _ => -100, fun _ => 0, fun _ => 0⟩ "1970-01-01") := by decide

/-- C10, amended. The staged-question count is computed from the textarea
text, not from push events: in the multi-file variant it is the number of
occurrences of Question-colon-space, so any text typed or pasted counts
toward the cap and a push is refused purely on that count; a successful
push increases it by one plus the occurrences of the pattern inside the
pushed text, answer and explanation fields (exactly one when no field
contains the pattern, strictly more than one when one does). The index.tsx
variant counts case-insensitive occurrences of Question-colon, with the
analogous increment. -/
theorem C10_staged_count_amended (q : ExtractedQuestion) (s : String) :
    (6 ≤ stagedCount s → handlePushToEngineOut q s = s) ∧
    (stagedCount s < 6 →
      stagedCount (handlePushToEngineOut q s) =
        stagedCount s + 1 + countOcc "Question: ".data q.text.data +
          countOcc "Question: ".data q.correctAnswer.data +
          countOcc "Question: ".data q.explanation.data) ∧
    (stagedCount s < 6 → containsL "Question: ".data q.text.data = false →
      containsL "Question: ".data q.correctAnswer.data = false →
      containsL "Question: ".data q.explanation.data = false →
      stagedCount (handlePushToEngineOut q s) = stagedCount s + 1) ∧
    (stagedCount s < 6 → containsL "Question: ".data q.text.data = true →
      stagedCount s + 1 < stagedCount (handlePushToEngineOut q s)) ∧
    (currentStagedCount s < 6 →
      currentStagedCount (handlePushToEngineIdx q s) =
        currentStagedCount s + 1 + countOcc "question:".data (lowerL q.text.data) +
          countOcc "question:".data (lowerL q.correctAnswer.data) +
          countOcc "question:".data (lowerL q.explanation.data)) := by
  have h1 : ("Question: " : String).data = 'Q' :: "uestion: ".data := rfl
  refine ⟨?_, stagedCount_push_out q s, ?_, ?_, currentStagedCount_push_idx q s⟩
  · intro h6
    unfold handlePushToEngineOut
    rw [if_pos h6]
  · intro h6 ht ha he
    rw [stagedCount_push_out q s h6,
      countOcc_eq_zero_of_not_contains _ _ ht,
      countOcc_eq_zero_of_not_contains _ _ ha,
      countOcc_eq_zero_of_not_contains _ _ he]
  · intro h6 hcont
    rw [stagedCount_push_out q s h6]
    rw [h1] at hcont ⊢
    have := one_le_countOcc_of_contains 'Q' "uestion: ".data q.text.data hcont
    omega

/-- C10 witness: a push into an empty area with plain fields raises the
multi-file count to exactly one; a pushed text field containing the
pattern raises it by more than one; the index.tsx count rises to one as
well. -/
theorem C10_witness :
    stagedCount (handlePushToEngineOut ⟨"1", "t", "c", "e"⟩ "") = 1 ∧
    stagedCount "" + 1 <
      stagedCount (handlePushToEngineOut ⟨"1", "see Question: nested", "c", "e"⟩ "") ∧
    currentStagedCount (handlePushToEngineIdx ⟨"1", "t", "c", "e"⟩ "") = 1 := by
  refine ⟨?_, ?_, ?_⟩
  · have h := (C10_staged_count_amended ⟨"1", "t", "c", "e"⟩ "").2.2.1
      (by decide) (by decide) (by decide) (by decide)
    rw [h]
    decide
  · exact (C10_staged_count_amended ⟨"1", "see Question: nested", "c", "e"⟩ "").2.2.2.1
      (by decide) (by decide)
  · have h := (C10_staged_count_amended ⟨"1", "t", "c", "e"⟩ "").2.2.2.2 (by decide)
    rw [h]
    decide

/-- C10, counterexample to the claim as stated: the index.tsx staged count
is not the number of occurrences of Question-colon-space (typed lowercase
text already counts), and a push whose fields do not contain that
substring can increase the index.tsx count by two. -/
theorem C10_cex :
    currentStagedCount "question:x" = 1 ∧
    countOcc "Question: ".data "question:x".data = 0 ∧
    containsL "Question: ".data "see question:".data = false ∧
    currentStagedCount "" < 6 ∧
    currentStagedCount (handlePushToEngineIdx ⟨"1", "see question:", "c", "e"⟩ "") = 2 := by
  decide

end AIE
